import Mathlib

/-!
Verification of the tinyexpr expression library (GerHobbelt fork).

The development shallowly embeds the C sources:
  * `src/unnamed/part_000` — the full engine: lexer, recursive-descent
    parser (with the `TE_POW_FROM_RIGHT` option active, as set in the
    project header), constant-folding optimizer, evaluator, public
    `te_compile` / `te_interp` entry points;
  * `src/unnamed/part_001` — the older variant that carries the symbolic
    differentiator (`differentiate_symbolically`).

Doubles are idealized as exact rationals extended with `±∞` and NaN
(the spec states constant folding is compared "modulo IEEE-754 rounding";
every concrete input used in a theorem is exactly representable, so the
idealization agrees with IEEE arithmetic there).  Transcendental libm
functions (sin, tgamma, pow, ...) are outside this repository; they are
fields of a `MathLib` record that parameterizes evaluation.
-/

namespace TinyExpr

/-! ### Exact rationals, kernel-computable

`MQ` is an unnormalized fraction `num / den` with `den > 0` maintained by
construction.  We do not normalize: all operations are exact and ordering
and equality are decided by cross-multiplication, which keeps every
operation reducible inside the Lean kernel. -/

structure MQ where
  num : Int
  den : Nat
deriving DecidableEq

def MQ.ofInt (n : Int) : MQ := ⟨n, 1⟩

def MQ.add (x y : MQ) : MQ := ⟨x.num * y.den + y.num * x.den, x.den * y.den⟩

def MQ.neg (x : MQ) : MQ := ⟨-x.num, x.den⟩

def MQ.sub (x y : MQ) : MQ := x.add y.neg

def MQ.mul (x y : MQ) : MQ := ⟨x.num * y.num, x.den * y.den⟩

/-- Division of `x` by `y`, assuming `y.num ≠ 0` (callers check). -/
def MQ.div (x y : MQ) : MQ :=
  if y.num < 0 then ⟨-(x.num * y.den), x.den * y.num.natAbs⟩
  else ⟨x.num * y.den, x.den * y.num.natAbs⟩

/-- Value equality (`num/den` cross-multiplied). -/
def MQ.eqb (x y : MQ) : Bool := x.num * y.den == y.num * x.den

def MQ.ltb (x y : MQ) : Bool := x.num * y.den < y.num * x.den

def MQ.leb (x y : MQ) : Bool := x.num * y.den ≤ y.num * x.den

/-- Mathematical floor of `num/den` (floor division; `den > 0`). -/
def MQ.floorI (x : MQ) : Int := x.num.fdiv x.den

/-- Truncation toward zero, as C's `(long long)` double-to-int cast. -/
def MQ.truncI (x : MQ) : Int := x.num.tdiv x.den

/-- C `llround`: round to nearest, halfway cases away from zero. -/
def MQ.llroundI (x : MQ) : Int :=
  if 0 ≤ x.num then (2 * x.num + x.den).fdiv (2 * x.den)
  else -((2 * (-x.num) + x.den).fdiv (2 * x.den))

/-! ### Kernel-computable two's-complement bitwise operations

`Nat.bitwise` (hence `Int.land` etc.) is defined by well-founded recursion
and does not reduce in the kernel, so we implement fueled structural
versions; fuel `a + 1` always suffices because the first argument halves
at each step. -/

def natAndF : Nat → Nat → Nat → Nat
  | 0, _, _ => 0
  | f + 1, a, b =>
    if a = 0 then 0 else (if a % 2 = 1 ∧ b % 2 = 1 then 1 else 0) + 2 * natAndF f (a / 2) (b / 2)

def natOrF : Nat → Nat → Nat → Nat
  | 0, _, _ => 0
  | f + 1, a, b =>
    if a = 0 then b else if b = 0 then a else
      (if a % 2 = 1 ∨ b % 2 = 1 then 1 else 0) + 2 * natOrF f (a / 2) (b / 2)

def natXorF : Nat → Nat → Nat → Nat
  | 0, _, _ => 0
  | f + 1, a, b =>
    if a = 0 then b else if b = 0 then a else
      (if (a % 2 = 1) ≠ (b % 2 = 1) then 1 else 0) + 2 * natXorF f (a / 2) (b / 2)

/-- `a AND (NOT b)` on bits of naturals. -/
def natDiffF : Nat → Nat → Nat → Nat
  | 0, _, _ => 0
  | f + 1, a, b =>
    if a = 0 then 0 else (if a % 2 = 1 ∧ b % 2 = 0 then 1 else 0) + 2 * natDiffF f (a / 2) (b / 2)

def natAndI (a b : Nat) : Nat := natAndF (a + 1) a b
def natOrI (a b : Nat) : Nat := natOrF (a + 1) a b
def natXorI (a b : Nat) : Nat := natXorF (a + 1) a b
def natDiffI (a b : Nat) : Nat := natDiffF (a + 1) a b

/-- Two's-complement NOT on mathematical integers: `~x = -(x+1)`. -/
def lnotI (x : Int) : Int := -(x + 1)

/-- Two's-complement AND on mathematical integers (C `&` on `long long`). -/
def landI : Int → Int → Int
  | .ofNat a, .ofNat b => .ofNat (natAndI a b)
  | .ofNat a, .negSucc b => .ofNat (natDiffI a b)
  | .negSucc a, .ofNat b => .ofNat (natDiffI b a)
  | .negSucc a, .negSucc b => .negSucc (natOrI a b)

/-- Two's-complement OR on mathematical integers (C `|` on `long long`). -/
def lorI : Int → Int → Int
  | .ofNat a, .ofNat b => .ofNat (natOrI a b)
  | .ofNat a, .negSucc b => .negSucc (natDiffI b a)
  | .negSucc a, .ofNat b => .negSucc (natDiffI a b)
  | .negSucc a, .negSucc b => .ofNat (natAndI a b)

/-- Two's-complement XOR on mathematical integers (C `^` on `long long`). -/
def lxorI : Int → Int → Int
  | .ofNat a, .ofNat b => .ofNat (natXorI a b)
  | .ofNat a, .negSucc b => .negSucc (natXorI a b)
  | .negSucc a, .ofNat b => .negSucc (natXorI a b)
  | .negSucc a, .negSucc b => .ofNat (natXorI a b)

/-- C `x << k` on `long long`, for shift counts in `[0, 64)`; other counts
are undefined behavior in C and are mapped to `0` here. -/
def shlI (x y : Int) : Int :=
  if 0 ≤ y ∧ y < 64 then x * (2 ^ y.toNat) else 0

/-- C `x >> k` (arithmetic shift) for shift counts in `[0, 64)`. -/
def shrI (x y : Int) : Int :=
  if 0 ≤ y ∧ y < 64 then x.fdiv (2 ^ y.toNat) else 0

/-! ### The value domain

A C `double` is idealized as an exact rational, `+∞`, `-∞`, or NaN.
The model has a single zero (no `-0.0`); no claim below distinguishes
signed zeros. -/

inductive TEVal where
  | fin (q : MQ)
  | pinf
  | ninf
  | nan
deriving DecidableEq

def intV (n : Int) : TEVal := .fin (MQ.ofInt n)

/-- IEEE `==` on the idealized doubles (NaN compares unequal to all). -/
def teEq : TEVal → TEVal → Bool
  | .fin a, .fin b => a.eqb b
  | .pinf, .pinf => true
  | .ninf, .ninf => true
  | _, _ => false

/-- IEEE `<` (false whenever either side is NaN). -/
def teLt : TEVal → TEVal → Bool
  | .fin a, .fin b => a.ltb b
  | .fin _, .pinf => true
  | .ninf, .fin _ => true
  | .ninf, .pinf => true
  | _, _ => false

/-- IEEE `<=` (false whenever either side is NaN). -/
def teLe : TEVal → TEVal → Bool
  | .fin a, .fin b => a.leb b
  | .fin _, .pinf => true
  | .ninf, .fin _ => true
  | .ninf, .pinf => true
  | .pinf, .pinf => true
  | .ninf, .ninf => true
  | _, _ => false

/-- C boolean result (`0.0` or `1.0`) from a Lean `Bool`. -/
def boolV (b : Bool) : TEVal := .fin ⟨if b then 1 else 0, 1⟩

/-! Arithmetic helper functions of the source (part_000 lines 381-411),
one Lean definition per C `static double` function. -/

def add : TEVal → TEVal → TEVal
  | .fin a, .fin b => .fin (a.add b)
  | .fin _, .pinf => .pinf
  | .fin _, .ninf => .ninf
  | .pinf, .fin _ => .pinf
  | .ninf, .fin _ => .ninf
  | .pinf, .pinf => .pinf
  | .ninf, .ninf => .ninf
  | _, _ => .nan

def sub : TEVal → TEVal → TEVal
  | .fin a, .fin b => .fin (a.sub b)
  | .fin _, .pinf => .ninf
  | .fin _, .ninf => .pinf
  | .pinf, .fin _ => .pinf
  | .ninf, .fin _ => .ninf
  | .pinf, .ninf => .pinf
  | .ninf, .pinf => .ninf
  | _, _ => .nan

/-- Sign of a finite value as `-1, 0, 1`, used for `±∞` propagation. -/
def MQ.signI (x : MQ) : Int := if x.num < 0 then -1 else if x.num = 0 then 0 else 1

def mul : TEVal → TEVal → TEVal
  | .fin a, .fin b => .fin (a.mul b)
  | .fin a, .pinf => if a.num = 0 then .nan else if a.num < 0 then .ninf else .pinf
  | .fin a, .ninf => if a.num = 0 then .nan else if a.num < 0 then .pinf else .ninf
  | .pinf, .fin b => if b.num = 0 then .nan else if b.num < 0 then .ninf else .pinf
  | .ninf, .fin b => if b.num = 0 then .nan else if b.num < 0 then .pinf else .ninf
  | .pinf, .pinf => .pinf
  | .pinf, .ninf => .ninf
  | .ninf, .pinf => .ninf
  | .ninf, .ninf => .pinf
  | _, _ => .nan

/-- IEEE division; `x/0` gives `±∞` for `x ≠ 0` and NaN for `0/0`
(the model's single zero is treated as `+0`). -/
def divide : TEVal → TEVal → TEVal
  | .fin a, .fin b =>
    if b.num = 0 then
      (if a.num = 0 then .nan else if a.num < 0 then .ninf else .pinf)
    else .fin (a.div b)
  | .fin _, .pinf => .fin ⟨0, 1⟩
  | .fin _, .ninf => .fin ⟨0, 1⟩
  | .pinf, .fin b => if b.num < 0 then .ninf else .pinf
  | .ninf, .fin b => if b.num < 0 then .pinf else .ninf
  | _, _ => .nan

def negate : TEVal → TEVal
  | .fin a => .fin a.neg
  | .pinf => .ninf
  | .ninf => .pinf
  | .nan => .nan

def comma (_ b : TEVal) : TEVal := b

/-- C `fmod(a,b)`: remainder with the sign of the dividend;
NaN when `b = 0` or `a = ±∞`; `a` when `b = ±∞` and `a` finite. -/
def sd_mod : TEVal → TEVal → TEVal
  | .fin a, .fin b =>
    if b.num = 0 then .nan
    else .fin (a.sub (b.mul (MQ.ofInt ((a.div b).truncI))))
  | .fin a, .pinf => .fin a
  | .fin a, .ninf => .fin a
  | _, _ => .nan

def greater (a b : TEVal) : TEVal := boolV (teLt b a)
def greater_eq (a b : TEVal) : TEVal := boolV (teLe b a)
def lower (a b : TEVal) : TEVal := boolV (teLt a b)
def lower_eq (a b : TEVal) : TEVal := boolV (teLe a b)
def equal (a b : TEVal) : TEVal := boolV (teEq a b)
def not_equal (a b : TEVal) : TEVal := boolV (!teEq a b)
def logical_and (a b : TEVal) : TEVal := boolV (!teEq a (intV 0) && !teEq b (intV 0))
def logical_or (a b : TEVal) : TEVal := boolV (!teEq a (intV 0) || !teEq b (intV 0))
def logical_xor (a b : TEVal) : TEVal := boolV ((!teEq a (intV 0)) != (!teEq b (intV 0)))
def logical_not (a : TEVal) : TEVal := boolV (teEq a (intV 0))
def logical_notnot (a : TEVal) : TEVal := boolV (!teEq a (intV 0))
def negate_logical_not (a : TEVal) : TEVal := negate (boolV (teEq a (intV 0)))
def negate_logical_notnot (a : TEVal) : TEVal := negate (boolV (!teEq a (intV 0)))

/-- C `llround` lifted to the value domain; `llround` of NaN or `±∞` is
unspecified in C and modelled as `0`. -/
def llroundV : TEVal → Int
  | .fin a => a.llroundI
  | _ => 0

def shift_left (a b : TEVal) : TEVal := intV (shlI (llroundV a) (llroundV b))
def shift_right (a b : TEVal) : TEVal := intV (shrI (llroundV a) (llroundV b))
def bitwise_and (a b : TEVal) : TEVal := intV (landI (llroundV a) (llroundV b))
def bitwise_or (a b : TEVal) : TEVal := intV (lorI (llroundV a) (llroundV b))
def bitwise_xor (a b : TEVal) : TEVal := intV (lxorI (llroundV a) (llroundV b))

/-- part_000 line 406: `~llround(a) & 0x1FFFFFFFFFFFFFLL`. -/
def bitwise_not (a : TEVal) : TEVal := intV (landI (lnotI (llroundV a)) 0x1FFFFFFFFFFFFF)

/-- part_000 line 409: `llround(a) & 0x1FFFFFFFFFFFFFLL`. -/
def bitwise_notnot (a : TEVal) : TEVal := intV (landI (llroundV a) 0x1FFFFFFFFFFFFF)

/-! ### libm interface

The C standard math library is external to this repository; its
functions become fields of a record.  Only behavior actually exercised
by a theorem is ever assumed of them. -/

structure MathLib where
  sinF : TEVal → TEVal
  cosF : TEVal → TEVal
  tanF : TEVal → TEVal
  asinF : TEVal → TEVal
  acosF : TEVal → TEVal
  atanF : TEVal → TEVal
  sinhF : TEVal → TEVal
  coshF : TEVal → TEVal
  tanhF : TEVal → TEVal
  expF : TEVal → TEVal
  lnF : TEVal → TEVal
  log10F : TEVal → TEVal
  log2F : TEVal → TEVal
  sqrtF : TEVal → TEVal
  cbrtF : TEVal → TEVal
  tgammaF : TEVal → TEVal
  fabsF : TEVal → TEVal
  ceilF : TEVal → TEVal
  floorF : TEVal → TEVal
  atan2F : TEVal → TEVal → TEVal
  powF : TEVal → TEVal → TEVal
  piD : TEVal
  eD : TEVal

/-- `pow` for a finite base and an integer finite exponent, where IEEE
`pow` is exact; other cases are stand-in junk (NaN) never relied upon. -/
def ratPow : TEVal → TEVal → TEVal
  | .fin a, .fin b =>
    if b.num.emod b.den = 0 then
      let e : Int := b.num.ediv b.den
      if 0 ≤ e then .fin ⟨a.num ^ e.toNat, a.den ^ e.toNat⟩
      else if a.num = 0 then .pinf
      else
        let k := (-e).toNat
        .fin ⟨(if a.num < 0 ∧ k % 2 = 1 then -(a.den ^ k : Int) else (a.den ^ k : Int)),
              a.num.natAbs ^ k⟩
    else .nan
  | _, _ => .nan

/-- Exact `fabs`. -/
def exactAbs : TEVal → TEVal
  | .fin a => .fin ⟨if a.num < 0 then -a.num else a.num, a.den⟩
  | .pinf => .pinf
  | .ninf => .pinf
  | .nan => .nan

/-- Exact `ceil`. -/
def exactCeil : TEVal → TEVal
  | .fin a => intV (-((-a.num).fdiv a.den))
  | v => v

/-- Exact `floor`. -/
def exactFloor : TEVal → TEVal
  | .fin a => intV a.floorI
  | v => v

/-- Default `MathLib` instantiation used by witnesses: exact where libm
is exact on the inputs appearing in concrete theorems, NaN junk
elsewhere (no theorem relies on the junk). -/
def mathDefault : MathLib where
  sinF _ := .nan
  cosF _ := .nan
  tanF _ := .nan
  asinF _ := .nan
  acosF _ := .nan
  atanF _ := .nan
  sinhF _ := .nan
  coshF _ := .nan
  tanhF _ := .nan
  expF _ := .nan
  lnF _ := .nan
  log10F _ := .nan
  log2F _ := .nan
  sqrtF _ := .nan
  cbrtF _ := .nan
  tgammaF _ := .nan
  fabsF := exactAbs
  ceilF := exactCeil
  floorF := exactFloor
  atan2F _ _ := .nan
  powF := ratPow
  piD := .nan
  eD := .nan

/-! ### Builtins with numeric contracts (part_000 lines 154-211) -/

/-- part_000 `fac`: `if (a > 0) return tgamma(a + 1); return NAN;`. -/
def fac (M : MathLib) (a : TEVal) : TEVal :=
  if teLt (intV 0) a then M.tgammaF (add a (intV 1)) else .nan

/-- C cast `(unsigned int)(double)`: defined for values in `[0, 2^32)`,
undefined behavior otherwise (modelled as 0). -/
def toUInt (v : TEVal) : Nat :=
  match v with
  | .fin a => if 0 ≤ a.num ∧ a.ltb ⟨2 ^ 32, 1⟩ then a.truncI.toNat else 0
  | _ => 0

/-- One multiply-then-divide step of the `ncr` loop; exact on naturals
as in the C `unsigned long` arithmetic (no overflow up to the guard). -/
def ncrLoop : Nat → Nat → Nat → Nat → Nat
  | 0, _, _, acc => acc
  | i + 1, un, ur, acc =>
    let step := ur - i  -- iterates i' = 1 .. ur with i' = ur - i
    if acc > (2 ^ 64 - 1) / (un - ur + step) then acc  -- overflow marker handled by caller
    else ncrLoop i un ur (acc * (un - ur + step) / step)

/-- Whether the `ncr` loop hits its overflow guard at some step. -/
def ncrOverflows : Nat → Nat → Nat → Nat → Bool
  | 0, _, _, _ => false
  | i + 1, un, ur, acc =>
    let step := ur - i
    if acc > (2 ^ 64 - 1) / (un - ur + step) then true
    else ncrOverflows i un ur (acc * (un - ur + step) / step)

/-- part_000 `ncr` (combinations). -/
def ncr (n r : TEVal) : TEVal :=
  if teLt n (intV 0) || teLt r (intV 0) || teLt n r then .nan
  else if teLt (intV (2 ^ 32 - 1)) n || teLt (intV (2 ^ 32 - 1)) r then .pinf
  else
    let un := toUInt n
    let ur0 := toUInt r
    let ur := if ur0 > un / 2 then un - ur0 else ur0
    if ncrOverflows ur un ur 1 then .pinf else intV (ncrLoop ur un ur 1)

/-- part_000 `npr`: `ncr(n, r) * fac(r)`. -/
def npr (M : MathLib) (n r : TEVal) : TEVal := mul (ncr n r) (fac M r)

/-- Euclid's loop from part_000 `gcd`, on the truncated-to-unsigned
arguments. -/
def gcdLoop (fuel a b : Nat) : Nat :=
  match fuel with
  | 0 => a
  | f + 1 => if b > 0 then gcdLoop f b (a % b) else a

def sd_gcd (x y : TEVal) : TEVal := intV (gcdLoop (toUInt y + 1) (toUInt x) (toUInt y))

/-- part_000 `sd_min`: `(c < d) ? c : d`. -/
def sd_min (c d : TEVal) : TEVal := if teLt c d then c else d

/-- part_000 `sd_max`: `(c > d) ? c : d`. -/
def sd_max (c d : TEVal) : TEVal := if teLt d c then c else d

/-! ### Function identities

C stores function pointers and compares them for identity; each distinct
`static double` function of part_000 becomes one tag.  `log` is the
base-10 variant (`TE_NAT_LOG` is `#undef`'d in the project header), so
the builtin `log` shares `sd_log10` with `log10`, and `**`, `^`-free
`pow` share `sd_pow`, exactly as the pointers coincide in C. -/

inductive Fn where
  | fabs | facos | fasin | fatan | fatan2 | fcbrt | fceil | fcos | fcosh | fe
  | fexp | ffac | ffloor | fgamma | fgcd | fln | flog10 | flog2
  | fmax | fmin | fmod | fncr | fnpr | fpi | fpow
  | fsin | fsinh | fsqrt | ftan | ftanh
  | addF | subF | mulF | divF | negF | commaF
  | gtF | geF | ltF | leF | eqF | neF
  | landF | lorF | lxorF | lnotF | lnotnotF | neglnotF | neglnotnotF
  | shlF | shrF | bandF | borF | bxorF | bnotF | bnotnotF
deriving DecidableEq

/-- Function reference stored in an AST node: a named `static` function
of the source, a host-registered plain function (by host table index),
or a host closure (function index plus opaque context handle). -/
inductive FnRef where
  | builtin (f : Fn)
  | host (fid : Nat)
  | hostClo (fid : Nat) (ctx : Nat)
deriving DecidableEq

/-- Evaluation environment: the libm record plus the host-provided
plain functions and closures (deterministic stand-ins; C function
pointers are fixed for the lifetime of a compiled tree). -/
structure TEEnv where
  math : MathLib
  hostFn : Nat → List TEVal → TEVal
  hostClo : Nat → Nat → List TEVal → TEVal

/-- Apply a named builtin to its evaluated argument list (the arity
always matches for parser-built trees; a mismatch is the C `default:
return NAN` path). -/
def evalBuiltin (M : MathLib) : Fn → List TEVal → TEVal
  | .fpi, [] => M.piD
  | .fe, [] => M.eD
  | .fabs, [a] => M.fabsF a
  | .facos, [a] => M.acosF a
  | .fasin, [a] => M.asinF a
  | .fatan, [a] => M.atanF a
  | .fcbrt, [a] => M.cbrtF a
  | .fceil, [a] => M.ceilF a
  | .fcos, [a] => M.cosF a
  | .fcosh, [a] => M.coshF a
  | .fexp, [a] => M.expF a
  | .ffac, [a] => fac M a
  | .ffloor, [a] => M.floorF a
  | .fgamma, [a] => M.tgammaF a
  | .fln, [a] => M.lnF a
  | .flog10, [a] => M.log10F a
  | .flog2, [a] => M.log2F a
  | .fsin, [a] => M.sinF a
  | .fsinh, [a] => M.sinhF a
  | .fsqrt, [a] => M.sqrtF a
  | .ftan, [a] => M.tanF a
  | .ftanh, [a] => M.tanhF a
  | .fatan2, [a, b] => M.atan2F a b
  | .fgcd, [a, b] => sd_gcd a b
  | .fmax, [a, b] => sd_max a b
  | .fmin, [a, b] => sd_min a b
  | .fmod, [a, b] => sd_mod a b
  | .fncr, [a, b] => ncr a b
  | .fnpr, [a, b] => npr M a b
  | .fpow, [a, b] => M.powF a b
  | .addF, [a, b] => add a b
  | .subF, [a, b] => sub a b
  | .mulF, [a, b] => mul a b
  | .divF, [a, b] => divide a b
  | .negF, [a] => negate a
  | .commaF, [a, b] => comma a b
  | .gtF, [a, b] => greater a b
  | .geF, [a, b] => greater_eq a b
  | .ltF, [a, b] => lower a b
  | .leF, [a, b] => lower_eq a b
  | .eqF, [a, b] => equal a b
  | .neF, [a, b] => not_equal a b
  | .landF, [a, b] => logical_and a b
  | .lorF, [a, b] => logical_or a b
  | .lxorF, [a, b] => logical_xor a b
  | .lnotF, [a] => logical_not a
  | .lnotnotF, [a] => logical_notnot a
  | .neglnotF, [a] => negate_logical_not a
  | .neglnotnotF, [a] => negate_logical_notnot a
  | .shlF, [a, b] => shift_left a b
  | .shrF, [a, b] => shift_right a b
  | .bandF, [a, b] => bitwise_and a b
  | .borF, [a, b] => bitwise_or a b
  | .bxorF, [a, b] => bitwise_xor a b
  | .bnotF, [a] => bitwise_not a
  | .bnotnotF, [a] => bitwise_notnot a
  | _, _ => .nan

def applyFn (F : TEEnv) : FnRef → List TEVal → TEVal
  | .builtin f, vs => evalBuiltin F.math f vs
  | .host fid, vs => F.hostFn fid vs
  | .hostClo fid ctx, vs => F.hostClo fid ctx vs

/-! ### The AST (part_000 `te_expr`)

A node is a constant, a reference to a host-bound scalar (modelled as an
index into a variable state), or a function/closure application with a
purity flag (the `TE_FLAG_PURE` bit), a function reference and child
nodes.  The argument list is a bespoke mutual inductive so that all
recursions below are structural and kernel-computable. -/

mutual
inductive TEExpr where
  | const (v : TEVal)
  | varE (idx : Nat)
  | func (pureF : Bool) (f : FnRef) (args : TEArgs)
deriving DecidableEq
inductive TEArgs where
  | nil
  | cons (a : TEExpr) (as : TEArgs)
deriving DecidableEq
end

def TEArgs.single (a : TEExpr) : TEArgs := .cons a .nil
def TEArgs.pair (a b : TEExpr) : TEArgs := .cons a (.cons b .nil)

/-! part_000 `te_eval`: constants yield their value, variables
dereference the bound scalar (state `σ`), function and closure nodes
evaluate their children left to right and apply the stored function. -/

mutual
def te_eval (F : TEEnv) (σ : Nat → TEVal) : TEExpr → TEVal
  | .const v => v
  | .varE i => σ i
  | .func _ f args => applyFn F f (evalArgs F σ args)
def evalArgs (F : TEEnv) (σ : Nat → TEVal) : TEArgs → List TEVal
  | .nil => []
  | .cons a as => te_eval F σ a :: evalArgs F σ as
end

def TEExpr.isConst : TEExpr → Bool
  | .const _ => true
  | _ => false

def allConstArgs : TEArgs → Bool
  | .nil => true
  | .cons a as => a.isConst && allConstArgs as

/-! part_000 `optimize`: post-order; a node flagged pure whose children
all optimized to constants is replaced in place by a constant carrying
its `te_eval` value (`σc` is the variable state at compile time — never
actually read when folding, since folding requires constant children).
Constants, variables, and nodes not flagged pure are left untouched
(an impure node's children are not even visited, as in the C). -/

mutual
def optimize (F : TEEnv) (σc : Nat → TEVal) : TEExpr → TEExpr
  | .const v => .const v
  | .varE i => .varE i
  | .func p f args =>
    if p then
      let args' := optimizeArgs F σc args
      if allConstArgs args' then .const (te_eval F σc (.func p f args'))
      else .func p f args'
    else .func p f args
def optimizeArgs (F : TEEnv) (σc : Nat → TEVal) : TEArgs → TEArgs
  | .nil => .nil
  | .cons a as => .cons (optimize F σc a) (optimizeArgs F σc as)
end

/-! ### Lexer (part_000 `next_token`, lines 413-559)

The scanner state keeps the *remaining* input (`rest`); the C pointer
difference `s->next - s->start` is recovered as
`inputLength - rest.length`. -/

/-- Host binding table entry payload (`te_variable`): a bound scalar
(index into the variable state), a plain function of given arity with
the host-chosen purity flag, or a closure additionally carrying an
opaque context handle. -/
inductive TEBind where
  | varB (idx : Nat)
  | funcB (arity : Nat) (pureF : Bool) (fid : Nat)
  | cloB (arity : Nat) (pureF : Bool) (fid : Nat) (ctx : Nat)
deriving DecidableEq

structure TEVar where
  name : String
  bind : TEBind
deriving DecidableEq

inductive Tok where
  | nullT
  | errorT
  | endT
  | sepT
  | openT
  | closeT
  | number (v : MQ)
  | varT (idx : Nat)
  | fnT (arity : Nat) (pureF : Bool) (ref : FnRef)
  | infixT (op : Fn)
deriving DecidableEq

/-- C-locale `isdigit`. -/
def isDigitC (c : Char) : Bool := '0' ≤ c && c ≤ '9'

/-- C-locale `isalpha` (ASCII letters). -/
def isAlphaC (c : Char) : Bool := ('a' ≤ c && c ≤ 'z') || ('A' ≤ c && c ≤ 'Z')

def isIdentCont (c : Char) : Bool := isAlphaC c || isDigitC c || c == '_'

/-- Scan a maximal digit run, returning accumulated value, digit count
and the rest. -/
def scanDigits : List Char → Nat → Nat → Nat × Nat × List Char
  | [], acc, cnt => (acc, cnt, [])
  | c :: cs, acc, cnt =>
    if isDigitC c then scanDigits cs (acc * 10 + (c.toNat - 48)) (cnt + 1)
    else (acc, cnt, c :: cs)

def scanExpDigits (sign : Int) (cs orig : List Char) : Int × List Char :=
  match cs with
  | c :: _ =>
    if isDigitC c then
      let (v, _, r) := scanDigits cs 0 0
      (sign * (v : Int), r)
    else (0, orig)
  | [] => (0, orig)

def scanExpSign (cs orig : List Char) : Int × List Char :=
  match cs with
  | '+' :: cs' => scanExpDigits 1 cs' orig
  | '-' :: cs' => scanExpDigits (-1) cs' orig
  | _ => scanExpDigits 1 cs orig

def scanExp (s : List Char) : Int × List Char :=
  match s with
  | 'e' :: rest => scanExpSign rest s
  | 'E' :: rest => scanExpSign rest s
  | _ => (0, s)

/-- `strtod` on the decimal forms `digits [. digits] [e|E [+|-] digits]`
(the inf/nan forms of C99 `strtod` never start with a digit or dot and
are unreachable from the lexer's guard).  When no conversion is
possible (a lone `.`), `strtod` returns `0` and leaves the pointer
where it was.  Known divergence from C99: `strtod` also consumes
hexadecimal literals (`"0x10"` reads as `16.0` and compiles), while
this model reads `0` followed by the identifier `x10`, which fails to
resolve; no theorem below is stated on a hexadecimal input. -/
def strtodM (s : List Char) : MQ × List Char :=
  let (ip, icnt, r1) := scanDigits s 0 0
  let (fp, fcnt, r2) :=
    match r1 with
    | '.' :: cs => scanDigits cs 0 0
    | _ => (0, 0, r1)
  if icnt = 0 ∧ fcnt = 0 then (⟨0, 1⟩, s)
  else
    let m : Nat := ip * 10 ^ fcnt + fp
    let (e, r3) := scanExp r2
    if 0 ≤ e then (⟨(m : Int) * 10 ^ e.toNat, 10 ^ fcnt⟩, r3)
    else (⟨(m : Int), 10 ^ (fcnt + (-e).toNat)⟩, r3)

def scanIdent : List Char → List Char × List Char
  | [] => ([], [])
  | c :: cs =>
    if isIdentCont c then
      let (nm, r) := scanIdent cs
      (c :: nm, r)
    else ([], c :: cs)

/-- The builtin registry of part_000 (lines 298-336), in source order
(alphabetical).  The C `find_builtin` binary-searches this sorted table
with an exact-full-name comparison; on a sorted table that is
observationally an exact association lookup, which is how it is
modelled.  All builtins are pure. -/
def builtinTable : List (String × Nat × Fn) :=
  [("abs", 1, .fabs), ("acos", 1, .facos), ("asin", 1, .fasin),
   ("atan", 1, .fatan), ("atan2", 2, .fatan2), ("cbrt", 1, .fcbrt),
   ("ceil", 1, .fceil), ("cos", 1, .fcos), ("cosh", 1, .fcosh),
   ("e", 0, .fe), ("exp", 1, .fexp), ("fac", 1, .ffac),
   ("floor", 1, .ffloor), ("gamma", 1, .fgamma), ("gcd", 2, .fgcd),
   ("ln", 1, .fln), ("log", 1, .flog10), ("log10", 1, .flog10),
   ("log2", 1, .flog2), ("max", 2, .fmax), ("min", 2, .fmin),
   ("mod", 2, .fmod), ("ncr", 2, .fncr), ("npr", 2, .fnpr),
   ("pi", 0, .fpi), ("pow", 2, .fpow), ("sin", 1, .fsin),
   ("sinh", 1, .fsinh), ("sqrt", 1, .fsqrt), ("tan", 1, .ftan),
   ("tanh", 1, .ftanh)]

def find_builtin (nm : String) : Option (Nat × Fn) :=
  builtinTable.lookup nm

/-- part_000 `find_lookup`: linear scan of the host table, first exact
name match wins. -/
def find_lookup (look : List TEVar) (nm : String) : Option TEBind :=
  match look with
  | [] => none
  | v :: vs => if v.name = nm then some v.bind else find_lookup vs nm

/-- Identifier resolution: host bindings first, then the builtin
registry; unresolved identifiers give the error token. -/
def resolveName (look : List TEVar) (nm : String) : Tok :=
  match find_lookup look nm with
  | some (.varB i) => .varT i
  | some (.funcB ar p fid) => .fnT ar p (.host fid)
  | some (.cloB ar p fid ctx) => .fnT ar p (.hostClo fid ctx)
  | none =>
    match find_builtin nm with
    | some (ar, f) => .fnT ar true (.builtin f)
    | none => .errorT

/-- One token from the remaining input (part_000 `next_token`):
whitespace is skipped, numbers and identifiers are scanned maximally,
operators use the source's exact one-character lookahead (the
advance-then-backtrack of `! & | ^`, the peek of `< >`).  Known
divergence on the `=` error path (part_000 lines 483-490): `=` is the
one case whose else branch does **not** back up, so on a mismatch the C
consumes the following character even when that character is the NUL
terminator, leaving the scanner one past the end of the input.  The
state here is the remaining-input suffix, which cannot lie outside the
input: mid-string the model likewise consumes the one following
character, but for an input ending in a lone `=` the C stop offset
(hence the reported error index) is one larger than the model's —
`te_compile("=")` reports 2 in C, `te_compile("1=")` reports 3.  This
is the subject of claim C2.  The only other statement touching such
inputs is claim C10, which concerns the returned tree and value only:
on its `"!="` corner both compilations fail jointly, in C and in the
model alike, so that equality is unaffected. -/
def nextTok (look : List TEVar) : List Char → Tok × List Char
  | [] => (.endT, [])
  | c :: cs =>
    if isDigitC c || c == '.' then
      let (v, r) := strtodM (c :: cs)
      (.number v, r)
    else if isAlphaC c || c == '_' then
      let (nm, r) := scanIdent (c :: cs)
      (resolveName look (String.mk nm), r)
    else if c == '+' then (.infixT .addF, cs)
    else if c == '-' then (.infixT .subF, cs)
    else if c == '*' then
      match cs with
      | '*' :: cs' => (.infixT .fpow, cs')
      | _ => (.infixT .mulF, cs)
    else if c == '/' then (.infixT .divF, cs)
    else if c == '%' then (.infixT .fmod, cs)
    else if c == '!' then
      match cs with
      | '=' :: cs' => (.infixT .neF, cs')
      | _ => (.infixT .lnotF, cs)
    else if c == '=' then
      match cs with
      | '=' :: cs' => (.infixT .eqF, cs')
      | _ :: cs' => (.errorT, cs')
      | [] => (.errorT, [])
    else if c == '<' then
      match cs with
      | '=' :: cs' => (.infixT .leF, cs')
      | '<' :: cs' => (.infixT .shlF, cs')
      | '>' :: cs' => (.infixT .neF, cs')
      | _ => (.infixT .ltF, cs)
    else if c == '>' then
      match cs with
      | '=' :: cs' => (.infixT .geF, cs')
      | '>' :: cs' => (.infixT .shrF, cs')
      | _ => (.infixT .gtF, cs)
    else if c == '&' then
      match cs with
      | '&' :: cs' => (.infixT .landF, cs')
      | _ => (.infixT .bandF, cs)
    else if c == '|' then
      match cs with
      | '|' :: cs' => (.infixT .lorF, cs')
      | _ => (.infixT .borF, cs)
    else if c == '^' then
      match cs with
      | '^' :: cs' => (.infixT .lxorF, cs')
      | _ => (.infixT .bxorF, cs)
    else if c == '~' then (.infixT .bnotF, cs)
    else if c == '(' then (.openT, cs)
    else if c == ')' then (.closeT, cs)
    else if c == ',' then (.sepT, cs)
    else if c == ' ' || c == '\t' || c == '\n' || c == '\r' then nextTok look cs
    else (.errorT, cs)

structure PState where
  rest : List Char
  tok : Tok
  look : List TEVar
deriving DecidableEq

def next_token (st : PState) : PState :=
  let (t, r) := nextTok st.look st.rest
  { st with tok := t, rest := r }

def PState.setError (st : PState) : PState := { st with tok := .errorT }

/-! ### Parser (part_000 lines 562-1050)

A faithful rendering of the recursive-descent parser with the
`TE_POW_FROM_RIGHT` branch of `factor` (the configuration selected by
the project header).  All functions are structurally recursive on a
fuel parameter; `none` means only that the fuel ran out (the C parser
always terminates, and every theorem either supplies ample fuel for its
concrete input or quantifies over the fuel). -/

/-- The unary-operator gathering loop at the head of part_000 `power`
(lines 702-788): folds a run of leading `+ - ! ~` into `sign`,
`logical`, `bitwise_neg` accumulators, stopping with `complex = true`
on the mixed combinations the source delegates to a recursive `power`
call (`~` after `-`, `-` after `~`, `~` after `!`, `!` after `~`).
A unary `-` or `+` encountered while `logical ≠ 0` is a no-op (the
source discards it).  The fuel `k` is structural bookkeeping only;
`power` passes `rest.length + 1`, which the loop can never exhaust
because every continued iteration consumes at least one character. -/
def gatherAux : Nat → Int → Int → Int → PState → Int × Int × Int × Bool × PState
  | 0, sign, logical, bneg, st => (sign, logical, bneg, false, st)
  | k + 1, sign, logical, bneg, st =>
    match st.tok with
    | .infixT op =>
      if op = .lnotF then
        if logical = 0 then
          if bneg ≠ 0 then (sign, logical, bneg, true, st)
          else gatherAux k sign (-1) bneg (next_token st)
        else gatherAux k sign (-logical) bneg (next_token st)
      else if op = .bnotF then
        if logical = 0 then
          if sign ≠ 1 then (sign, logical, bneg, true, st)
          else if bneg = 0 then gatherAux k sign logical (-1) (next_token st)
          else gatherAux k sign logical (-bneg) (next_token st)
        else (sign, logical, bneg, true, st)
      else if op = .subF then
        if logical = 0 then
          if bneg = 0 then gatherAux k (-sign) logical bneg (next_token st)
          else (sign, logical, bneg, true, st)
        else gatherAux k sign logical bneg (next_token st)
      else if op = .addF then gatherAux k sign logical bneg (next_token st)
      else (sign, logical, bneg, false, st)
    | _ => (sign, logical, bneg, false, st)

/-- Wrap the parsed operand in the single unary node selected by the
gathered flags (part_000 lines 801-852).  The debug-only assertion
branch for `sign = -1 ∧ bitwise_neg ≠ 0` is unreachable (gathering
marks that combination `complex`) and release builds fall through to
`negate`, which is what this definition does. -/
def wrapUnary (sign logical bneg : Int) (ret : TEExpr) : TEExpr :=
  if sign = 1 then
    if logical = 0 then
      if bneg = 0 then ret
      else if bneg = -1 then .func true (.builtin .bnotF) (.single ret)
      else .func true (.builtin .bnotnotF) (.single ret)
    else if logical = -1 then .func true (.builtin .lnotF) (.single ret)
    else .func true (.builtin .lnotnotF) (.single ret)
  else
    if logical = 0 then .func true (.builtin .negF) (.single ret)
    else if logical = -1 then .func true (.builtin .neglnotF) (.single ret)
    else .func true (.builtin .neglnotnotF) (.single ret)

def listToArgs : List TEExpr → TEArgs
  | [] => .nil
  | e :: es => .cons e (listToArgs es)

mutual

/-- part_000 `list`: comma-separated expressions. -/
def listP : Nat → TEEnv → PState → Option (TEExpr × PState)
  | 0, _, _ => none
  | n + 1, F, st =>
    match exprP n F st with
    | none => none
    | some (ret, st1) => listLoopP n F ret st1

def listLoopP : Nat → TEEnv → TEExpr → PState → Option (TEExpr × PState)
  | 0, _, _, _ => none
  | n + 1, F, ret, st =>
    if st.tok = .sepT then
      match exprP n F (next_token st) with
      | none => none
      | some (e, st1) => listLoopP n F (.func true (.builtin .commaF) (.pair ret e)) st1
    else some (ret, st)

/-- part_000 `expr`: the logical layer `&& || ^^`. -/
def exprP : Nat → TEEnv → PState → Option (TEExpr × PState)
  | 0, _, _ => none
  | n + 1, F, st =>
    match bitwP n F st with
    | none => none
    | some (ret, st1) => exprLoopP n F ret st1

def exprLoopP : Nat → TEEnv → TEExpr → PState → Option (TEExpr × PState)
  | 0, _, _, _ => none
  | n + 1, F, ret, st =>
    match st.tok with
    | .infixT op =>
      if op = .landF ∨ op = .lorF ∨ op = .lxorF then
        match bitwP n F (next_token st) with
        | none => none
        | some (e, st1) => exprLoopP n F (.func true (.builtin op) (.pair ret e)) st1
      else some (ret, st)
    | _ => some (ret, st)

/-- part_000 `bitw_expr`: the bitwise layer `& | ^`. -/
def bitwP : Nat → TEEnv → PState → Option (TEExpr × PState)
  | 0, _, _ => none
  | n + 1, F, st =>
    match testP n F st with
    | none => none
    | some (ret, st1) => bitwLoopP n F ret st1

def bitwLoopP : Nat → TEEnv → TEExpr → PState → Option (TEExpr × PState)
  | 0, _, _, _ => none
  | n + 1, F, ret, st =>
    match st.tok with
    | .infixT op =>
      if op = .bandF ∨ op = .borF ∨ op = .bxorF then
        match testP n F (next_token st) with
        | none => none
        | some (e, st1) => bitwLoopP n F (.func true (.builtin op) (.pair ret e)) st1
      else some (ret, st)
    | _ => some (ret, st)

/-- part_000 `test_expr`: comparisons. -/
def testP : Nat → TEEnv → PState → Option (TEExpr × PState)
  | 0, _, _ => none
  | n + 1, F, st =>
    match shiftP n F st with
    | none => none
    | some (ret, st1) => testLoopP n F ret st1

def testLoopP : Nat → TEEnv → TEExpr → PState → Option (TEExpr × PState)
  | 0, _, _, _ => none
  | n + 1, F, ret, st =>
    match st.tok with
    | .infixT op =>
      if op = .gtF ∨ op = .geF ∨ op = .ltF ∨ op = .leF ∨ op = .eqF ∨ op = .neF then
        match shiftP n F (next_token st) with
        | none => none
        | some (e, st1) => testLoopP n F (.func true (.builtin op) (.pair ret e)) st1
      else some (ret, st)
    | _ => some (ret, st)

/-- part_000 `shift_expr`: `<< >>`. -/
def shiftP : Nat → TEEnv → PState → Option (TEExpr × PState)
  | 0, _, _ => none
  | n + 1, F, st =>
    match sumP n F st with
    | none => none
    | some (ret, st1) => shiftLoopP n F ret st1

def shiftLoopP : Nat → TEEnv → TEExpr → PState → Option (TEExpr × PState)
  | 0, _, _, _ => none
  | n + 1, F, ret, st =>
    match st.tok with
    | .infixT op =>
      if op = .shlF ∨ op = .shrF then
        match sumP n F (next_token st) with
        | none => none
        | some (e, st1) => shiftLoopP n F (.func true (.builtin op) (.pair ret e)) st1
      else some (ret, st)
    | _ => some (ret, st)

/-- part_000 `sum_expr`: `+ -`. -/
def sumP : Nat → TEEnv → PState → Option (TEExpr × PState)
  | 0, _, _ => none
  | n + 1, F, st =>
    match termP n F st with
    | none => none
    | some (ret, st1) => sumLoopP n F ret st1

def sumLoopP : Nat → TEEnv → TEExpr → PState → Option (TEExpr × PState)
  | 0, _, _, _ => none
  | n + 1, F, ret, st =>
    match st.tok with
    | .infixT op =>
      if op = .addF ∨ op = .subF then
        match termP n F (next_token st) with
        | none => none
        | some (te, st1) => sumLoopP n F (.func true (.builtin op) (.pair ret te)) st1
      else some (ret, st)
    | _ => some (ret, st)

/-- part_000 `term`: `* / %`. -/
def termP : Nat → TEEnv → PState → Option (TEExpr × PState)
  | 0, _, _ => none
  | n + 1, F, st =>
    match factorP n F st with
    | none => none
    | some (ret, st1) => termLoopP n F ret st1

def termLoopP : Nat → TEEnv → TEExpr → PState → Option (TEExpr × PState)
  | 0, _, _, _ => none
  | n + 1, F, ret, st =>
    match st.tok with
    | .infixT op =>
      if op = .mulF ∨ op = .divF ∨ op = .fmod then
        match factorP n F (next_token st) with
        | none => none
        | some (f, st1) => termLoopP n F (.func true (.builtin op) (.pair ret f)) st1
      else some (ret, st)
    | _ => some (ret, st)

/-- part_000 `factor`, `TE_POW_FROM_RIGHT` branch (lines 857-900): a
first `**` builds `ret ** rhs`; each further `**` is threaded into the
right spine (popping the previous exponent and replacing it with
`exponent ** next`), yielding a right-nested chain.  `powTailP` renders
that in-place threading functionally.  Note this branch does **not**
strip a leading unary node off `ret` before attaching the exponent (the
separate `tinyexpr.c` file does), so `-a**b` parses as `(-a)**b`. -/
def factorP : Nat → TEEnv → PState → Option (TEExpr × PState)
  | 0, _, _ => none
  | n + 1, F, st =>
    match powerP n F st with
    | none => none
    | some (ret, st1) =>
      if st1.tok = .infixT .fpow then
        match powerP n F (next_token st1) with
        | none => none
        | some (f, st2) =>
          match powTailP n F f st2 with
          | none => none
          | some (rhs, st3) => some (.func true (.builtin .fpow) (.pair ret rhs), st3)
      else some (ret, st1)

/-- The exponent chain of right-associative `**`: given the exponent
parsed so far, absorb further `** power` steps right-nested. -/
def powTailP : Nat → TEEnv → TEExpr → PState → Option (TEExpr × PState)
  | 0, _, _, _ => none
  | n + 1, F, b, st =>
    if st.tok = .infixT .fpow then
      match powerP n F (next_token st) with
      | none => none
      | some (c, st1) =>
        match powTailP n F c st1 with
        | none => none
        | some (rest, st2) => some (.func true (.builtin .fpow) (.pair b rest), st2)
    else some (b, st)

/-- part_000 `power` (lines 697-853): gather leading unary operators,
parse the operand (recursing into `power` itself for a `complex` mix,
else `base`), then wrap in the single folded unary node. -/
def powerP : Nat → TEEnv → PState → Option (TEExpr × PState)
  | 0, _, _ => none
  | n + 1, F, st =>
    match gatherAux (st.rest.length + 1) 1 0 0 st with
    | (sign, logical, bneg, cplx, st1) =>
      match (if cplx then powerP n F st1 else baseP n F st1) with
      | none => none
      | some (ret, st2) => some (wrapUnary sign logical bneg ret, st2)

/-- The argument loop of part_000 `base` for arity ≥ 2 calls
(lines 651-660): parse up to `iters` comma-separated arguments; the
returned number is the final loop index relative to the starting one
(the C `i` after the loop, used for the arity check). -/
def argsLoopP : Nat → TEEnv → Nat → PState → Option (List TEExpr × Nat × PState)
  | 0, _, _, _ => none
  | n + 1, F, iters, st =>
    match iters with
    | 0 => some ([], 0, st)
    | iters' + 1 =>
      match exprP n F (next_token st) with
      | none => none
      | some (e, st1) =>
        if st1.tok = .sepT then
          if iters' = 0 then some ([e], 1, st1)
          else
            match argsLoopP n F iters' st1 with
            | none => none
            | some (es, fi, st2) => some (e :: es, fi + 1, st2)
        else some ([e], 0, st1)

/-- part_000 `base` (lines 566-694). -/
def baseP : Nat → TEEnv → PState → Option (TEExpr × PState)
  | 0, _, _ => none
  | n + 1, F, st =>
    match st.tok with
    | .number v => some (.const (.fin v), next_token st)
    | .varT i => some (.varE i, next_token st)
    | .fnT arity p ref =>
      match arity with
      | 0 =>
        -- nullary: optional `()` pair
        let st1 := next_token st
        if st1.tok = .openT then
          let st2 := next_token st1
          if st2.tok = .closeT then some (.func p ref .nil, next_token st2)
          else some (.func p ref .nil, st2.setError)
        else some (.func p ref .nil, st1)
      | 1 =>
        -- arity 1: the no-parens shorthand parses a `power`
        match powerP n F (next_token st) with
        | none => none
        | some (arg, st1) => some (.func p ref (.single arg), st1)
      | k + 2 =>
        let st1 := next_token st
        if st1.tok ≠ .openT then
          -- C leaves the child slots null and flags the error
          some (.func p ref .nil, st1.setError)
        else
          match argsLoopP n F (k + 2) st1 with
          | none => none
          | some (es, fi, st2) =>
            if st2.tok = .closeT ∧ fi = k + 1 then
              some (.func p ref (listToArgs es), next_token st2)
            else some (.func p ref (listToArgs es), st2.setError)
    | .openT =>
      match listP n F (next_token st) with
      | none => none
      | some (r, st1) =>
        if st1.tok = .closeT then some (r, next_token st1)
        else some (r, st1.setError)
    | _ =>
      -- C builds a type-0 node carrying NaN and flags the error; the
      -- node is never evaluated because compilation fails
      some (.const .nan, st.setError)

end

/-! ### Entry points (part_000 lines 1115-1162) -/

/-- part_000 `te_compile`, additionally exposing the stop offset
`s.next - s.start` of the final parser state.  On success the error
index is `0` and the optimized tree is returned; on failure the tree is
freed (dropped) and the error index is the stop offset, bumped to `1`
when the parse stopped at offset `0`.  The C `-1` branch covers only
`malloc` failure, which has no counterpart in the model; the outer
`none` is fuel exhaustion.  The stop offset is computed from the
remaining-input suffix and therefore never exceeds the input length,
whereas the C scanner overshoots the terminator on the `=` error path
(see `nextTok` and claim C2). -/
def te_compileFull (n : Nat) (F : TEEnv) (look : List TEVar) (σc : Nat → TEVal)
    (s : String) : Option (Option TEExpr × Int × Nat) :=
  let st0 : PState := { rest := s.data, tok := .nullT, look := look }
  match listP n F (next_token st0) with
  | none => none
  | some (root, st) =>
    let stop := s.data.length - st.rest.length
    if st.tok = .endT then some (some (optimize F σc root), 0, stop)
    else some (none, (if stop = 0 then 1 else (stop : Int)), stop)

def te_compile (n : Nat) (F : TEEnv) (look : List TEVar) (σc : Nat → TEVal)
    (s : String) : Option (Option TEExpr × Int) :=
  (te_compileFull n F look σc s).map fun r => (r.1, r.2.1)

/-- part_000 `te_interp`: compile without host bindings, evaluate, free;
NaN with the error index on failure. -/
def te_interp (n : Nat) (F : TEEnv) (s : String) : Option (TEVal × Int) :=
  (te_compile n F [] (fun _ => .nan) s).map fun r =>
    (match r.1 with
     | some t => te_eval F (fun _ => .nan) t
     | none => .nan, r.2)

/-- Default environment for witnesses: the default libm stand-in and
NaN-junk host tables (concrete theorems register explicit bindings
through `look` when they need host functions). -/
def envDefault : TEEnv where
  math := mathDefault
  hostFn := fun _ _ => .nan
  hostClo := fun _ _ _ => .nan

/-! ### Structural predicates on ASTs -/

mutual
def noVarsE : TEExpr → Bool
  | .const _ => true
  | .varE _ => false
  | .func _ _ args => noVarsArgs args
def noVarsArgs : TEArgs → Bool
  | .nil => true
  | .cons a as => noVarsE a && noVarsArgs as
end

mutual
def allPureE : TEExpr → Bool
  | .const _ => true
  | .varE _ => true
  | .func p _ args => p && allPureArgs args
def allPureArgs : TEArgs → Bool
  | .nil => true
  | .cons a as => allPureE a && allPureArgs as
end

/-! ### Spec-side definition for the shift-conversion claim

Modelled from the spec: "`<< >>`: convert both operands via
round-to-nearest-even-to-long-long, perform shift on 64-bit integer,
convert back to double" — i.e. ties go to the even integer, so `0.5`
converts to `0` and `1.5` to `2`.  This is the claimed conversion, to
be compared against the source's `llround` (ties away from zero). -/
def MQ.rneI (x : MQ) : Int :=
  let f := x.floorI
  let rem2 : Int := 2 * x.num - (2 * f + 1) * x.den  -- sign of (x - f) - 1/2
  if rem2 < 0 then f
  else if 0 < rem2 then f + 1
  else if f % 2 = 0 then f else f + 1

def rneV : TEVal → Int
  | .fin a => a.rneI
  | _ => 0

/-- The spec's version of `<<` (round-to-nearest-even conversion). -/
def shift_left_spec (a b : TEVal) : TEVal := intV (shlI (rneV a) (rneV b))

/-! ### The symbolic differentiator of part_001

part_001's AST has the same shape but its nodes may carry null children
(the differentiator builds nodes directly from possibly-NULL recursive
results without checking).  `DOptE.dnone` is C's null child; part_001's
`te_eval` returns NaN for it.  Function identity reuses `Fn`; in
part_001 the natural-log libm pointer (`log`) is the one the builtin
`ln` resolves to, written `.fln` here, and `^` resolves to libm `pow`
(`.fpow`). -/

mutual
inductive DExpr where
  | dconst (v : TEVal)
  | dvar (idx : Nat)
  | dfunc (pureF : Bool) (f : Fn) (args : DArgs)
  | dclo (pureF : Bool) (fid : Nat) (ctx : Nat) (args : DArgs)
deriving DecidableEq
inductive DArgs where
  | dnil
  | dcons (a : DOptE) (as : DArgs)
deriving DecidableEq
inductive DOptE where
  | dnone
  | dsome (e : DExpr)
deriving DecidableEq
end

/-! part_001 `te_eval` (lines 685-723): null subtrees evaluate to NaN. -/

mutual
def dEval (F : TEEnv) (σ : Nat → TEVal) : DExpr → TEVal
  | .dconst v => v
  | .dvar i => σ i
  | .dfunc _ f args => evalBuiltin F.math f (dEvalArgs F σ args)
  | .dclo _ fid ctx args => F.hostClo fid ctx (dEvalArgs F σ args)
def dEvalArgs (F : TEEnv) (σ : Nat → TEVal) : DArgs → List TEVal
  | .dnil => []
  | .dcons a as => dEvalOpt F σ a :: dEvalArgs F σ as
def dEvalOpt (F : TEEnv) (σ : Nat → TEVal) : DOptE → TEVal
  | .dnone => .nan
  | .dsome e => dEval F σ e
end

def DArgs.one (a : DOptE) : DArgs := .dcons a .dnil
def DArgs.two (a b : DOptE) : DArgs := .dcons a (.dcons b .dnil)

/-- Result of `differentiate_symbolically` embedded as an optional
child: a NULL result becomes a null child slot, exactly as the C stores
the unchecked recursive result into `parameters[i]`. -/
def toChild : Option DExpr → DOptE
  | none => .dnone
  | some e => .dsome e

def dconst0 : DExpr := .dconst (intV 0)

/-- part_001 `te_expr_deep_copy` produces a structurally identical tree;
in the functional model a deep copy is the tree itself. -/
def dcopy (e : DExpr) : DExpr := e

/-- part_001 `power_rule_one_parameter_function`:
`(f(u))' = f'(u) · u'`, built as `mul (g (copy u)) u'` where `g` is the
supplied derivative function.  The C function performs the recursive
differentiation itself and stores the result without a null check; here
the caller passes that recursive result in (`innerDeriv`), an otherwise
identical rendering that keeps the recursion structural. -/
def powerRule1 (g : Fn) (inner : DExpr) (innerDeriv : Option DExpr) : DExpr :=
  .dfunc true .mulF (.two
    (.dsome (.dfunc true g (.one (.dsome (dcopy inner)))))
    (toChild innerDeriv))

/-- part_001 `differentiate_symbolically` (lines 904-1065).  Supported:
constants, nullary functions/closures, variables, unary
`negate/sin/cos/ln/exp`, binary `add/sub/mul/divide/pow`.  Anything
else prints a diagnostic and returns NULL (`none`).  Note the division
branch: the node named `subtraction` in the source is built with `add`,
so the result encodes `(a'·b + b'·a) / b²`.  Recursive results are
stored as children without a null check, so a nested failure produces a
non-null tree with a null child. -/
def differentiate_symbolically (v : Nat) : DExpr → Option DExpr
  | .dconst _ => some dconst0
  | .dvar i => some (.dconst (intV (if i = v then 1 else 0)))
  | .dfunc _ f args =>
    match args with
    | .dnil => some dconst0
    | .dcons a .dnil =>
      match a with
      | .dnone => none  -- C dereferences the null child here (crash)
      | .dsome a' =>
        if f = .negF then
          some (.dfunc true .negF (.one (toChild (differentiate_symbolically v a'))))
        else if f = .fsin then
          some (powerRule1 .fcos a' (differentiate_symbolically v a'))
        else if f = .fcos then
          some (.dfunc true .negF
            (.one (.dsome (powerRule1 .fsin a' (differentiate_symbolically v a')))))
        else if f = .fln then
          some (.dfunc true .divF
            (.two (toChild (differentiate_symbolically v a')) (.dsome (dcopy a'))))
        else if f = .fexp then
          some (powerRule1 .fexp a' (differentiate_symbolically v a'))
        else none
    | .dcons a (.dcons b .dnil) =>
      match a, b with
      | .dsome a', .dsome b' =>
        let ap := toChild (differentiate_symbolically v a')
        let bp := toChild (differentiate_symbolically v b')
        if f = .addF then some (.dfunc true .addF (.two ap bp))
        else if f = .subF then some (.dfunc true .subF (.two ap bp))
        else if f = .mulF then
          some (.dfunc true .addF (.two
            (.dsome (.dfunc true .mulF (.two ap (.dsome (dcopy b')))))
            (.dsome (.dfunc true .mulF (.two bp (.dsome (dcopy a')))))))
        else if f = .divF then
          -- source comment says (a'·b − a·b')/b² but the node named
          -- `subtraction` is built with `add`
          some (.dfunc true .divF (.two
            (.dsome (.dfunc true .addF (.two
              (.dsome (.dfunc true .mulF (.two ap (.dsome (dcopy b')))))
              (.dsome (.dfunc true .mulF (.two bp (.dsome (dcopy a'))))))))
            (.dsome (.dfunc true .fpow (.two (.dsome (dcopy b')) (.dsome (.dconst (intV 2))))))))
        else if f = .fpow then
          some (.dfunc true .mulF (.two
            (.dsome (dcopy (.dfunc true .fpow (.two (.dsome a') (.dsome b')))))
            (.dsome (.dfunc true .addF (.two
              (.dsome (.dfunc true .divF (.two
                (.dsome (.dfunc true .mulF (.two ap (.dsome (dcopy b')))))
                (.dsome (dcopy a')))))
              (.dsome (.dfunc true .mulF (.two bp
                (.dsome (.dfunc true .fln (.one (.dsome (dcopy a')))))))))))))
        else none
      | _, _ => none  -- C dereferences a null child here (crash)
    | _ => none  -- arity ≥ 3: "Custom functions are not supported."
  | .dclo _ _ _ args =>
    match args with
    | .dnil => some dconst0
    | _ => none

/-! part_001 `optimize` is the same algorithm as part_000's; it is
called by `te_differentiate_symbolically` on the (possibly NULL)
result.  On a NULL argument the C `optimize` dereferences the null
pointer — that call has no total-function counterpart, so the entry
point below maps the optimizer over a non-null result only and the
divergence is recorded with claim C9. -/

def dAllConst : DArgs → Bool
  | .dnil => true
  | .dcons (.dsome (.dconst _)) as => dAllConst as
  | _ => false

mutual
def dOptimize (F : TEEnv) (σc : Nat → TEVal) : DExpr → DExpr
  | .dconst v => .dconst v
  | .dvar i => .dvar i
  | .dfunc p f args =>
    if p then
      let args' := dOptimizeArgs F σc args
      if dAllConst args' then .dconst (dEval F σc (.dfunc p f args'))
      else .dfunc p f args'
    else .dfunc p f args
  | .dclo p fid ctx args =>
    if p then
      let args' := dOptimizeArgs F σc args
      if dAllConst args' then .dconst (dEval F σc (.dclo p fid ctx args'))
      else .dclo p fid ctx args'
    else .dclo p fid ctx args
def dOptimizeArgs (F : TEEnv) (σc : Nat → TEVal) : DArgs → DArgs
  | .dnil => .dnil
  | .dcons a as => .dcons (dOptimizeOpt F σc a) (dOptimizeArgs F σc as)
def dOptimizeOpt (F : TEEnv) (σc : Nat → TEVal) : DOptE → DOptE
  | .dnone => .dnone  -- C crashes here (optimize(NULL)); junk value
  | .dsome e => .dsome (dOptimize F σc e)
end

/-- part_001 `te_differentiate_symbolically` (lines 1068-1073): calls
`differentiate_symbolically`, then `optimize` on the result — without a
null check, so when the result is NULL the C program dereferences a
null pointer; the embedding maps the optimizer over non-null results
only (see claim C9). -/
def te_differentiate_symbolically (F : TEEnv) (σc : Nat → TEVal) (v : Nat)
    (e : DExpr) : Option DExpr :=
  (differentiate_symbolically v e).map (dOptimize F σc)

/-- Tokens on which the unary-gathering loop of `power` stops
immediately (everything except an operand-starting token or one of the
four gathered unary operators `! ~ - +`).  On such a token `gatherAux`
returns its state unchanged and `base` flags a parse error. -/
def haltTok : Tok → Bool
  | .infixT op => decide (¬(op = .lnotF ∨ op = .bnotF ∨ op = .subF ∨ op = .addF))
  | .number _ => false
  | .varT _ => false
  | .fnT _ _ _ => false
  | .openT => false
  | _ => true

/-- Two parse results that fail together: either both ran out of fuel,
or both returned with the scanner on an error token (so compilation
reports failure for both and neither tree is returned). -/
def FailRel (x y : Option (TEExpr × PState)) : Prop :=
  (x = none ∧ y = none) ∨
  (∃ a sa b sb, x = some (a, sa) ∧ y = some (b, sb) ∧
    sa.tok = .errorT ∧ sb.tok = .errorT)

/-! ### Properties of the optimizer -/

/-- The evaluation of an all-constant argument list does not depend on
the variable state. -/
theorem evalArgs_allConst (F : TEEnv) :
    ∀ as : TEArgs, allConstArgs as = true →
      ∀ σ σ' : Nat → TEVal, evalArgs F σ as = evalArgs F σ' as
  | .nil, _, _, _ => rfl
  | .cons a as, h, σ, σ' => by
    rw [allConstArgs, Bool.and_eq_true] at h
    cases a with
    | const v =>
      simp only [evalArgs, te_eval]
      rw [evalArgs_allConst F as h.2 σ σ']
    | varE i => simp [TEExpr.isConst] at h
    | func p f args => simp [TEExpr.isConst] at h

mutual

theorem te_eval_optimize (F : TEEnv) (σc σe : Nat → TEVal) :
    ∀ t : TEExpr, te_eval F σe (optimize F σc t) = te_eval F σe t
  | .const v => rfl
  | .varE i => rfl
  | .func p f args => by
    cases p with
    | false => rw [optimize, if_neg (by simp : ¬(false = true))]
    | true =>
      rw [optimize, if_pos (rfl : true = true)]
      cases hc : allConstArgs (optimizeArgs F σc args) with
      | false =>
        rw [if_neg (by simp [hc])]
        simp only [te_eval]
        rw [evalArgs_optimize F σc σe args]
      | true =>
        rw [if_pos hc]
        simp only [te_eval]
        rw [evalArgs_allConst F _ hc σc σe, evalArgs_optimize F σc σe args]

theorem evalArgs_optimize (F : TEEnv) (σc σe : Nat → TEVal) :
    ∀ as : TEArgs, evalArgs F σe (optimizeArgs F σc as) = evalArgs F σe as
  | .nil => rfl
  | .cons a as => by
    rw [optimizeArgs, evalArgs, evalArgs, te_eval_optimize F σc σe a,
      evalArgs_optimize F σc σe as]

end

/-- C1: Constant folding preserves evaluation.  For every AST (in
particular every AST a successful parse produces) and every assignment
`σe` of values to the host-bound variables at evaluation time — which
may differ from the compile-time values `σc` the optimizer's embedded
`te_eval` calls would read — evaluating the optimized tree gives the
same value as evaluating the original tree.  The optimizer folds only
pure nodes whose children are all constants, so the folded value never
depends on `σc`. -/
theorem c1_constant_folding_preserves_evaluation :
    ∀ (F : TEEnv) (σc σe : Nat → TEVal) (t : TEExpr),
      te_eval F σe (optimize F σc t) = te_eval F σe t :=
  fun F σc σe t => te_eval_optimize F σc σe t

/-! Purity-driven folding (claim C8). -/

mutual

theorem optimize_fold (F : TEEnv) (σ : Nat → TEVal) :
    ∀ t : TEExpr, allPureE t = true → noVarsE t = true →
      (optimize F σ t).isConst = true
  | .const v, _, _ => rfl
  | .varE i, _, h => by simp [noVarsE] at h
  | .func p f args, hp, hv => by
    rw [allPureE, Bool.and_eq_true] at hp
    rw [noVarsE] at hv
    cases p with
    | false => exact absurd hp.1 (by simp)
    | true =>
      rw [optimize, if_pos (rfl : true = true),
        if_pos (optimizeArgs_fold F σ args hp.2 hv)]
      rfl

theorem optimizeArgs_fold (F : TEEnv) (σ : Nat → TEVal) :
    ∀ as : TEArgs, allPureArgs as = true → noVarsArgs as = true →
      allConstArgs (optimizeArgs F σ as) = true
  | .nil, _, _ => rfl
  | .cons a as, hp, hv => by
    rw [allPureArgs, Bool.and_eq_true] at hp
    rw [noVarsArgs, Bool.and_eq_true] at hv
    rw [optimizeArgs, allConstArgs, Bool.and_eq_true]
    exact ⟨optimize_fold F σ a hp.1 hv.1, optimizeArgs_fold F σ as hp.2 hv.2⟩

end

/-- C8 counterexample: the claim as stated fails.  A host may register
a nullary function without the pure flag (the C default for
host-registered functions); `"f"` then compiles successfully to an AST
with no Variable nodes, yet the optimized AST returned by compile is
that impure Function node, not a Constant. -/
theorem c8_counterexample :
    te_compile 40 envDefault [⟨"f", .funcB 0 false 0⟩] (fun _ => .nan) "f" =
      some (some (.func false (.host 0) .nil), 0) ∧
    noVarsE (.func false (.host 0) .nil) = true ∧
    (TEExpr.func false (.host 0) .nil).isConst = false := by
  refine ⟨by decide, rfl, rfl⟩

/-- C8 (amended): if the compiled AST contains no Variable nodes *and
every Function/Closure node in it carries the pure flag*, the optimizer
reduces it to a single Constant node; and a node not flagged pure is
never folded (it is returned untouched, its children not even
visited). -/
theorem c8_purity_driven_folding :
    (∀ (F : TEEnv) (σ : Nat → TEVal) (t : TEExpr),
        allPureE t = true → noVarsE t = true →
        (optimize F σ t).isConst = true) ∧
    (∀ (F : TEEnv) (σ : Nat → TEVal) (f : FnRef) (args : TEArgs),
        optimize F σ (.func false f args) = .func false f args) :=
  ⟨fun F σ t hp hv => optimize_fold F σ t hp hv,
   fun F σ f args => by rw [optimize, if_neg (by simp : ¬(false = true))]⟩

theorem c8_purity_driven_folding_witness :
    (optimize envDefault (fun _ => .nan)
      (.func true (.builtin .addF) (.pair (.const (intV 1)) (.const (intV 2))))).isConst
      = true :=
  c8_purity_driven_folding.1 envDefault (fun _ => .nan) _ (by decide) (by decide)

set_option maxRecDepth 40000

/-- C3 (code bug): with `TE_POW_FROM_RIGHT` active, part_000's `factor`
builds right-nested `**` chains (`2**3**4` = `2**(3**4)` = `2^81`), but
it does not re-apply a leading unary minus around the whole power the
way the claim (and the project's own `test_pow` cases `{"-2**2", "-4"}`,
`{"-a**b", "-(a**b)"}`) require: `-2**2` evaluates to `(-2)**2 = 4`,
not `-(2**2) = -4`. -/
theorem c3_pow_unary_minus_code_bug :
    te_interp 40 envDefault "-2**2" = some (intV 4, 0) ∧
    te_interp 40 envDefault "-(2**2)" = some (intV (-4), 0) ∧
    te_interp 45 envDefault "2**3**4" = some (intV 2417851639229258349412352, 0) ∧
    intV 4 ≠ intV (-4) := by
  refine ⟨by decide, by decide, by decide, by decide⟩

/-- C5 (code bug): part_000 `fac` is `a > 0 ? tgamma(a+1) : NaN`, so
`fac(0)` returns NaN — for every libm instantiation — although the
claim, the spec's reference behavior and the project's own test
(`{"fac(0)", 1}` in `test_combinatorics`) require `fac(0) = 1`. -/
theorem c5_fac_zero_code_bug :
    (∀ M : MathLib, fac M (intV 0) = .nan) ∧
    te_interp 40 envDefault "fac(0)" = some (.nan, 0) :=
  ⟨fun _ => rfl, by decide⟩

/-! Bounds on the masked bitwise-complement (claim C6). -/

theorem natAndF_le (b : Nat) : ∀ (f a : Nat), natAndF f a b ≤ b := by
  intro f
  induction f generalizing b with
  | zero => intro a; exact Nat.zero_le b
  | succ f ih =>
    intro a
    rw [natAndF]
    split
    · exact Nat.zero_le b
    · split
      · have := ih (b / 2) (a / 2)
        omega
      · have := ih (b / 2) (a / 2)
        omega

theorem natDiffF_le : ∀ (f a b : Nat), natDiffF f a b ≤ a := by
  intro f
  induction f with
  | zero => intro a b; exact Nat.zero_le a
  | succ f ih =>
    intro a b
    rw [natDiffF]
    split
    · omega
    · split
      · have := ih (a / 2) (b / 2)
        omega
      · have := ih (a / 2) (b / 2)
        omega

/-- AND-ing any two's-complement integer with a nonnegative mask lands
in `[0, mask]`. -/
theorem landI_mask_bound (x : Int) (m : Nat) :
    0 ≤ landI x (.ofNat m) ∧ landI x (.ofNat m) ≤ (m : Int) := by
  cases x with
  | ofNat a =>
    constructor
    · exact Int.ofNat_nonneg _
    · exact Int.ofNat_le.mpr (natAndF_le m (a + 1) a)
  | negSucc a =>
    constructor
    · exact Int.ofNat_nonneg _
    · exact Int.ofNat_le.mpr (natDiffF_le (m + 1) m a)

/-- C6: the unary `~` semantics.  `bitwise_not` takes the 64-bit
two's-complement NOT of the `llround`-converted operand, masks it with
`0x1FFFFFFFFFFFFF`, and converts back, so every result is an integer in
`[0, 2^53 - 1]` (the 53-bit range exactly representable as a double);
in particular `te_interp "~0"` yields `9007199254740991` with no
error. -/
theorem c6_bitwise_not_masked :
    (∀ a : TEVal, ∃ k : Int,
        bitwise_not a = intV k ∧ 0 ≤ k ∧ k ≤ 2 ^ 53 - 1) ∧
    te_interp 40 envDefault "~0" = some (intV 9007199254740991, 0) := by
  constructor
  · intro a
    have hb := landI_mask_bound (lnotI (llroundV a)) 0x1FFFFFFFFFFFFF
    exact ⟨landI (lnotI (llroundV a)) (.ofNat 0x1FFFFFFFFFFFFF), rfl, hb.1,
      le_trans hb.2 (by norm_num)⟩
  · decide

/-- C7 counterexample: the shift operands are *not* converted with
round-to-nearest-even.  At operand `0.5` the source's `llround`
conversion gives `1` (ties away from zero) while the claimed
ties-to-even conversion gives `0`: `1 << 0.5` computes `1 << 1 = 2`
under the code but `1 << 0 = 1` under the claim. -/
theorem c7_counterexample :
    shift_left (intV 1) (.fin ⟨1, 2⟩) = intV 2 ∧
    shift_left_spec (intV 1) (.fin ⟨1, 2⟩) = intV 1 ∧
    shift_left (intV 1) (.fin ⟨1, 2⟩) ≠ shift_left_spec (intV 1) (.fin ⟨1, 2⟩) := by
  refine ⟨by decide, by decide, by decide⟩

/-- Characterization of `(2n + d) / (2d)` (the nonnegative branch of
`llround`) as nearest-with-ties-away-from-zero. -/
theorem llround_char_nonneg (n d : Int) (hd : 0 < d) (hn : 0 ≤ n) (k : Int) :
    (2 * n + d) / (2 * d) = k ↔
      (2 * |n - k * d| < d ∨ (2 * |n - k * d| = d ∧ |n| < |k| * d)) := by
  have h2d : 0 < 2 * d := by omega
  have e1 : k * (2 * d) = 2 * (k * d) := by ring
  have e2 : (k + 1) * (2 * d) = 2 * (k * d) + 2 * d := by ring
  have huabs : |k| * d = |k * d| := by rw [abs_mul, abs_of_nonneg hd.le]
  have hnabs : |n| = n := abs_of_nonneg hn
  have hneg : k * d < 0 → k * d ≤ -d := by
    intro hu
    have hk : k < 0 := by
      by_contra hk
      exact absurd (mul_nonneg (not_lt.mp hk) hd.le) (not_le.mpr hu)
    have := mul_le_mul_of_nonneg_right (show k ≤ -1 by omega) hd.le
    omega
  constructor
  · intro hk
    have h1 : k * (2 * d) ≤ 2 * n + d :=
      (Int.le_ediv_iff_mul_le h2d).mp (le_of_eq hk.symm)
    have h2 : 2 * n + d < (k + 1) * (2 * d) :=
      (Int.ediv_lt_iff_lt_mul h2d).mp (by omega)
    rw [e1] at h1
    rw [e2] at h2
    by_cases ht : 2 * (n - k * d) = -d
    · right
      have haeq : |n - k * d| = -(n - k * d) := abs_of_neg (by omega)
      refine ⟨by omega, ?_⟩
      rw [hnabs, huabs, abs_of_pos (show 0 < k * d by omega)]
      omega
    · left
      rcases abs_cases (n - k * d) with ⟨ha, _⟩ | ⟨ha, _⟩ <;> omega
  · intro hA
    have hgoal : k * (2 * d) ≤ 2 * n + d ∧ 2 * n + d < (k + 1) * (2 * d) := by
      rw [e1, e2]
      rcases hA with hlt | ⟨htie, habs⟩
      · rcases abs_cases (n - k * d) with ⟨ha, _⟩ | ⟨ha, _⟩ <;> omega
      · rw [hnabs, huabs] at habs
        rcases abs_cases (n - k * d) with ⟨ha, _⟩ | ⟨ha, _⟩
        · -- would be a tie rounded toward zero; excluded by |n| < |k·d|
          rcases abs_cases (k * d) with ⟨hb, _⟩ | ⟨hb, _⟩
          · omega
          · have := hneg (by omega)
            omega
        · omega
    have hle : k ≤ (2 * n + d) / (2 * d) := (Int.le_ediv_iff_mul_le h2d).mpr hgoal.1
    have hlt : (2 * n + d) / (2 * d) < k + 1 := (Int.ediv_lt_iff_lt_mul h2d).mpr hgoal.2
    omega

/-- C7 (amended): the shift operands are converted with `llround`,
i.e. to the nearest integer with halfway cases away from zero: the
conversion result is `k` exactly when `|q - k| < 1/2`, or `|q - k| =
1/2` with `|k| > |q|` (stated over the exact fraction `num/den` by
cross-multiplication).  Both operands are converted this way, the shift
is performed on 64-bit integers, and the result converted back:
`1 << .5` evaluates to `1 << 1 = 2`. -/
theorem c7_llround_conversion :
    (∀ (q : MQ) (k : Int), 0 < q.den →
        (q.llroundI = k ↔
          (2 * |q.num - k * q.den| < (q.den : Int) ∨
           (2 * |q.num - k * q.den| = (q.den : Int) ∧ |q.num| < |k| * q.den)))) ∧
    te_interp 40 envDefault "1 << .5" = some (intV 2, 0) ∧
    te_interp 40 envDefault ".5 << 1" = some (intV 2, 0) := by
  refine ⟨?_, by decide, by decide⟩
  rintro ⟨n, dN⟩ k hd
  have hdI : (0 : Int) < (dN : Int) := by exact_mod_cast hd
  rw [MQ.llroundI]
  dsimp only
  by_cases hn : 0 ≤ n
  · rw [if_pos hn, Int.fdiv_eq_ediv _ (by omega)]
    exact llround_char_nonneg n dN hdI hn k
  · rw [if_neg hn, Int.fdiv_eq_ediv _ (by omega)]
    have hn' : 0 ≤ -n := by omega
    have h := llround_char_nonneg (-n) dN hdI hn' (-k)
    have ench : -n - -k * (dN : Int) = -(n - k * dN) := by ring
    rw [ench, abs_neg, abs_neg, abs_neg] at h
    constructor
    · intro hk
      exact h.mp (by omega)
    · intro hA
      have := h.mpr hA
      omega

/-- C7 witness: the characterization applied at `q = 1/2`, `k = 1`
(the tie at one half rounds away from zero, to 1). -/
theorem c7_llround_conversion_witness : (MQ.mk 1 2).llroundI = 1 :=
  (c7_llround_conversion.1 ⟨1, 2⟩ 1 (by norm_num)).mpr (by norm_num)

/-- C4 (code bug): the quotient rule of part_001's symbolic
differentiator.  For `u / v` with `u = 1`, `v = x`, the derivative tree
it builds evaluates at `x = 1` to `+1` — both directly and through the
`te_differentiate_symbolically` entry point (which runs the optimizer)
— because the node its source comments call `subtraction` is built
with `add`, encoding `(u'·v + v'·u)/v²`.  The claimed formula
`(u'·v − v'·u)/v²` (third conjunct, built explicitly) evaluates to
`-1` there. -/
theorem c4_quotient_rule_code_bug :
    (differentiate_symbolically 0
        (.dfunc true .divF (.dcons (.dsome (.dconst (intV 1)))
          (.dcons (.dsome (.dvar 0)) .dnil)))).map
      (fun dt => dEval envDefault (fun _ => intV 1) dt) = some (intV 1) ∧
    (te_differentiate_symbolically envDefault (fun _ => intV 1) 0
        (.dfunc true .divF (.dcons (.dsome (.dconst (intV 1)))
          (.dcons (.dsome (.dvar 0)) .dnil)))).map
      (fun dt => dEval envDefault (fun _ => intV 1) dt) = some (intV 1) ∧
    dEval envDefault (fun _ => intV 1)
      (.dfunc true .divF (.two
        (.dsome (.dfunc true .subF (.two
          (.dsome (.dfunc true .mulF (.two (.dsome (.dconst (intV 0)))
            (.dsome (.dvar 0)))))
          (.dsome (.dfunc true .mulF (.two (.dsome (.dconst (intV 1)))
            (.dsome (.dconst (intV 1)))))))))
        (.dsome (.dfunc true .fpow (.two (.dsome (.dvar 0))
          (.dsome (.dconst (intV 2))))))))
      = intV (-1) ∧
    intV 1 ≠ intV (-1) := by
  refine ⟨by decide, by decide, by decide, by decide⟩

/-- C9 counterexample: an AST *containing* an unsupported operator need
not differentiate to a null result.  For `(x & x) + x` the recursive
result for the left child is NULL, but the `add` branch stores it as a
child without checking and returns a non-null tree with a null slot. -/
theorem c9_counterexample :
    differentiate_symbolically 0
        (.dfunc true .addF (.dcons
          (.dsome (.dfunc true .bandF (.dcons (.dsome (.dvar 0))
            (.dcons (.dsome (.dvar 0)) .dnil))))
          (.dcons (.dsome (.dvar 0)) .dnil))) =
      some (.dfunc true .addF (.dcons .dnone (.dcons (.dsome (.dconst (intV 1))) .dnil)))
      := by decide

/-- C9 (amended): whenever the *root* node's operator is unsupported —
a unary function other than `negate/sin/cos/ln/exp`, a binary function
other than `+ - * / pow` (all the bitwise, comparison, logical and
factorial operators fall here), or any closure of arity ≥ 1 —
`differentiate_symbolically` reports the error and yields the null
result.  (The entry point then hands that null to `optimize`, which
dereferences it — see the claim record.) -/
theorem c9_unsupported_operator_null :
    (∀ (v : Nat) (p : Bool) (f : Fn) (a : DExpr),
        f ≠ .negF → f ≠ .fsin → f ≠ .fcos → f ≠ .fln → f ≠ .fexp →
        differentiate_symbolically v (.dfunc p f (.dcons (.dsome a) .dnil)) = none) ∧
    (∀ (v : Nat) (p : Bool) (f : Fn) (a b : DExpr),
        f ≠ .addF → f ≠ .subF → f ≠ .mulF → f ≠ .divF → f ≠ .fpow →
        differentiate_symbolically v
          (.dfunc p f (.dcons (.dsome a) (.dcons (.dsome b) .dnil))) = none) ∧
    (∀ (v : Nat) (p : Bool) (fid ctx : Nat) (a : DOptE) (as : DArgs),
        differentiate_symbolically v (.dclo p fid ctx (.dcons a as)) = none) := by
  refine ⟨?_, ?_, ?_⟩
  · intro v p f a h1 h2 h3 h4 h5
    simp only [differentiate_symbolically]
    rw [if_neg h1, if_neg h2, if_neg h3, if_neg h4, if_neg h5]
  · intro v p f a b h1 h2 h3 h4 h5
    simp only [differentiate_symbolically]
    rw [if_neg h1, if_neg h2, if_neg h3, if_neg h4, if_neg h5]
  · intro v p fid ctx a as
    simp only [differentiate_symbolically]

/-- C9 witness: the amended statement applied to `sqrt(x)` (unary) and
`x & x` (binary bitwise AND). -/
theorem c9_unsupported_operator_null_witness :
    differentiate_symbolically 0
      (.dfunc true .fsqrt (.dcons (.dsome (.dvar 0)) .dnil)) = none ∧
    differentiate_symbolically 0
      (.dfunc true .bandF (.dcons (.dsome (.dvar 0))
        (.dcons (.dsome (.dvar 0)) .dnil))) = none :=
  ⟨c9_unsupported_operator_null.1 0 true .fsqrt (.dvar 0)
      (by decide) (by decide) (by decide) (by decide) (by decide),
   c9_unsupported_operator_null.2.1 0 true .bandF (.dvar 0) (.dvar 0)
      (by decide) (by decide) (by decide) (by decide) (by decide)⟩

/-! ### Claim C10: a unary minus after a logical not is discarded -/

theorem next_token_tok_irrel (rest : List Char) (t1 t2 : Tok) (look : List TEVar) :
    next_token ⟨rest, t1, look⟩ = next_token ⟨rest, t2, look⟩ := by
  simp only [next_token]

theorem nextTok_bang (look : List TEVar) (r : List Char) (h : ∀ r', r ≠ '=' :: r') :
    nextTok look ('!' :: r) = (.infixT .lnotF, r) := by
  cases r with
  | nil => rfl
  | cons c r' =>
    have hc : c ≠ '=' := fun he => h r' (by rw [he])
    rw [show nextTok look ('!' :: c :: r') =
      (match c :: r' with
       | '=' :: cs' => (Tok.infixT Fn.neF, cs')
       | _ => (Tok.infixT Fn.lnotF, c :: r')) from rfl]
    split
    · rename_i cs' heq
      exact absurd (List.cons.inj heq).1 hc
    · rfl

theorem halt_after_eq (look : List TEVar) (r : List Char) (t0 : Tok) :
    haltTok (next_token ⟨'=' :: r, t0, look⟩).tok = true := by
  simp only [next_token]
  rw [show nextTok look ('=' :: r) =
    (match r with
     | '=' :: cs' => (Tok.infixT .eqF, cs')
     | _ :: cs' => (Tok.errorT, cs')
     | [] => (Tok.errorT, [])) from rfl]
  split <;> rfl

theorem gather_lnot (k : Nat) (s : Int) (rest : List Char) (look : List TEVar) :
    gatherAux (k + 1) s 0 0 ⟨rest, .infixT .lnotF, look⟩ =
      gatherAux k s (-1) 0 (next_token ⟨rest, .infixT .lnotF, look⟩) := by
  simp [gatherAux]

theorem gather_sub_discard (k : Nat) (s l b : Int) (hl : l ≠ 0)
    (rest : List Char) (look : List TEVar) :
    gatherAux (k + 1) s l b ⟨rest, .infixT .subF, look⟩ =
      gatherAux k s l b (next_token ⟨rest, .infixT .subF, look⟩) := by
  simp [gatherAux, hl]

theorem gather_sub_flip (k : Nat) (rest : List Char) (look : List TEVar) :
    gatherAux (k + 1) 1 0 0 ⟨rest, .infixT .subF, look⟩ =
      gatherAux k (-1) 0 0 (next_token ⟨rest, .infixT .subF, look⟩) := by
  simp [gatherAux]

theorem gather_halt (k : Nat) (s l b : Int) (st : PState) (h : haltTok st.tok = true) :
    gatherAux k s l b st = (s, l, b, false, st) := by
  cases k with
  | zero => rfl
  | succ k =>
    obtain ⟨rest, tok, look⟩ := st
    cases tok with
    | infixT op =>
      have h' := of_decide_eq_true h
      push_neg at h'
      obtain ⟨h1, h2, h3, h4⟩ := h'
      simp [gatherAux, h1, h2, h3, h4]
    | number v => simp [haltTok] at h
    | varT i => simp [haltTok] at h
    | fnT a p r => simp [haltTok] at h
    | openT => simp [haltTok] at h
    | nullT => simp [gatherAux]
    | errorT => simp [gatherAux]
    | endT => simp [gatherAux]
    | sepT => simp [gatherAux]
    | closeT => simp [gatherAux]

theorem gather_skip_minus (k : Nat) (s : Int) (rest : List Char) (look : List TEVar) :
    gatherAux (k + 1 + 1) s 0 0 ⟨'-' :: rest, .infixT .lnotF, look⟩ =
      gatherAux (k + 1) s 0 0 ⟨rest, .infixT .lnotF, look⟩ := by
  rw [gather_lnot, gather_lnot,
    show next_token ⟨'-' :: rest, .infixT .lnotF, look⟩ =
      ⟨rest, .infixT .subF, look⟩ from rfl,
    gather_sub_discard k s (-1) 0 (by norm_num) rest look,
    next_token_tok_irrel rest (.infixT .subF) (.infixT .lnotF) look]

theorem base_halt (n : Nat) (F : TEEnv) (st : PState) (h : haltTok st.tok = true) :
    baseP (n + 1) F st = some (.const .nan, st.setError) := by
  obtain ⟨rest, tok, look⟩ := st
  cases tok with
  | number v => simp [haltTok] at h
  | varT i => simp [haltTok] at h
  | fnT a p r => simp [haltTok] at h
  | openT => simp [haltTok] at h
  | infixT op => rfl
  | nullT => rfl
  | errorT => rfl
  | endT => rfl
  | sepT => rfl
  | closeT => rfl

theorem power_p1 (F : TEEnv) (E : List Char) (look : List TEVar) :
    ∀ n : Nat, powerP n F ⟨'-' :: E, .infixT .lnotF, look⟩ =
      powerP n F ⟨E, .infixT .lnotF, look⟩ := by
  intro n
  cases n with
  | zero => rfl
  | succ n =>
    simp only [powerP, List.length_cons]
    rw [gather_skip_minus E.length 1 E look]

theorem power_p1_fail (F : TEEnv) (r : List Char) (look : List TEVar) :
    ∀ n : Nat, FailRel (powerP n F ⟨'-' :: '=' :: r, .infixT .lnotF, look⟩)
      (powerP n F ⟨r, .infixT .neF, look⟩) := by
  intro n
  cases n with
  | zero => exact Or.inl ⟨rfl, rfl⟩
  | succ n =>
    simp only [powerP, List.length_cons]
    rw [gather_lnot (r.length + 1 + 1) 1 ('-' :: '=' :: r) look,
      show next_token ⟨'-' :: '=' :: r, .infixT .lnotF, look⟩ =
        ⟨'=' :: r, .infixT .subF, look⟩ from rfl,
      gather_sub_discard (r.length + 1) 1 (-1) 0 (by norm_num) ('=' :: r) look,
      gather_halt (r.length + 1) 1 (-1) 0 _ (halt_after_eq look r (.infixT .subF)),
      gather_halt (r.length + 1) 1 0 0 ⟨r, .infixT .neF, look⟩ (by rfl)]
    cases n with
    | zero => exact Or.inl ⟨rfl, rfl⟩
    | succ m =>
      rw [base_halt m F _ (halt_after_eq look r (.infixT .subF)),
        base_halt m F ⟨r, .infixT .neF, look⟩ (by rfl)]
      exact Or.inr ⟨_, _, _, _, rfl, rfl, rfl, rfl⟩

theorem power_p2 (F : TEEnv) (E : List Char) (look : List TEVar)
    (h : ∀ r', E ≠ '=' :: r') :
    ∀ n : Nat, powerP n F ⟨'!' :: '-' :: E, .infixT .subF, look⟩ =
      powerP n F ⟨'!' :: E, .infixT .subF, look⟩ := by
  intro n
  cases n with
  | zero => rfl
  | succ n =>
    simp only [powerP, List.length_cons]
    rw [gather_sub_flip (E.length + 1 + 1) ('!' :: '-' :: E) look,
      show next_token ⟨'!' :: '-' :: E, .infixT .subF, look⟩ =
        ⟨'-' :: E, .infixT .lnotF, look⟩ from rfl,
      gather_skip_minus E.length (-1) E look,
      gather_sub_flip (E.length + 1) ('!' :: E) look,
      show next_token ⟨'!' :: E, .infixT .subF, look⟩ =
        (⟨(nextTok look ('!' :: E)).2, (nextTok look ('!' :: E)).1, look⟩ : PState) from rfl,
      nextTok_bang look E h]

theorem power_p2_fail (F : TEEnv) (r : List Char) (look : List TEVar) :
    ∀ n : Nat, FailRel (powerP n F ⟨'!' :: '-' :: '=' :: r, .infixT .subF, look⟩)
      (powerP n F ⟨'!' :: '=' :: r, .infixT .subF, look⟩) := by
  intro n
  cases n with
  | zero => exact Or.inl ⟨rfl, rfl⟩
  | succ n =>
    simp only [powerP, List.length_cons]
    rw [gather_sub_flip (r.length + 1 + 1 + 1) ('!' :: '-' :: '=' :: r) look,
      show next_token ⟨'!' :: '-' :: '=' :: r, .infixT .subF, look⟩ =
        ⟨'-' :: '=' :: r, .infixT .lnotF, look⟩ from rfl,
      gather_lnot (r.length + 1 + 1) (-1) ('-' :: '=' :: r) look,
      show next_token ⟨'-' :: '=' :: r, .infixT .lnotF, look⟩ =
        ⟨'=' :: r, .infixT .subF, look⟩ from rfl,
      gather_sub_discard (r.length + 1) (-1) (-1) 0 (by norm_num) ('=' :: r) look,
      gather_halt (r.length + 1) (-1) (-1) 0 _ (halt_after_eq look r (.infixT .subF)),
      gather_sub_flip (r.length + 1 + 1) ('!' :: '=' :: r) look,
      show next_token ⟨'!' :: '=' :: r, .infixT .subF, look⟩ =
        ⟨r, .infixT .neF, look⟩ from rfl,
      gather_halt (r.length + 1 + 1) (-1) 0 0 ⟨r, .infixT .neF, look⟩ (by rfl)]
    cases n with
    | zero => exact Or.inl ⟨rfl, rfl⟩
    | succ m =>
      rw [base_halt m F _ (halt_after_eq look r (.infixT .subF)),
        base_halt m F ⟨r, .infixT .neF, look⟩ (by rfl)]
      exact Or.inr ⟨_, _, _, _, rfl, rfl, rfl, rfl⟩

theorem factor_congr (F : TEEnv) (s1 s2 : PState)
    (hp : ∀ n, powerP n F s1 = powerP n F s2) :
    ∀ n, factorP n F s1 = factorP n F s2 := by
  intro n
  cases n with
  | zero => rfl
  | succ n => simp only [factorP]; rw [hp n]

theorem term_congr (F : TEEnv) (s1 s2 : PState)
    (hp : ∀ n, factorP n F s1 = factorP n F s2) :
    ∀ n, termP n F s1 = termP n F s2 := by
  intro n
  cases n with
  | zero => rfl
  | succ n => simp only [termP]; rw [hp n]

theorem sum_congr (F : TEEnv) (s1 s2 : PState)
    (hp : ∀ n, termP n F s1 = termP n F s2) :
    ∀ n, sumP n F s1 = sumP n F s2 := by
  intro n
  cases n with
  | zero => rfl
  | succ n => simp only [sumP]; rw [hp n]

theorem shift_congr (F : TEEnv) (s1 s2 : PState)
    (hp : ∀ n, sumP n F s1 = sumP n F s2) :
    ∀ n, shiftP n F s1 = shiftP n F s2 := by
  intro n
  cases n with
  | zero => rfl
  | succ n => simp only [shiftP]; rw [hp n]

theorem test_congr (F : TEEnv) (s1 s2 : PState)
    (hp : ∀ n, shiftP n F s1 = shiftP n F s2) :
    ∀ n, testP n F s1 = testP n F s2 := by
  intro n
  cases n with
  | zero => rfl
  | succ n => simp only [testP]; rw [hp n]

theorem bitw_congr (F : TEEnv) (s1 s2 : PState)
    (hp : ∀ n, testP n F s1 = testP n F s2) :
    ∀ n, bitwP n F s1 = bitwP n F s2 := by
  intro n
  cases n with
  | zero => rfl
  | succ n => simp only [bitwP]; rw [hp n]

theorem expr_congr (F : TEEnv) (s1 s2 : PState)
    (hp : ∀ n, bitwP n F s1 = bitwP n F s2) :
    ∀ n, exprP n F s1 = exprP n F s2 := by
  intro n
  cases n with
  | zero => rfl
  | succ n => simp only [exprP]; rw [hp n]

theorem list_congr (F : TEEnv) (s1 s2 : PState)
    (hp : ∀ n, exprP n F s1 = exprP n F s2) :
    ∀ n, listP n F s1 = listP n F s2 := by
  intro n
  cases n with
  | zero => rfl
  | succ n => simp only [listP]; rw [hp n]

theorem termLoop_err (m : Nat) (F : TEEnv) (ret : TEExpr) (st : PState)
    (h : st.tok = .errorT) : termLoopP (m + 1) F ret st = some (ret, st) := by
  simp only [termLoopP]; rw [h]

theorem sumLoop_err (m : Nat) (F : TEEnv) (ret : TEExpr) (st : PState)
    (h : st.tok = .errorT) : sumLoopP (m + 1) F ret st = some (ret, st) := by
  simp only [sumLoopP]; rw [h]

theorem shiftLoop_err (m : Nat) (F : TEEnv) (ret : TEExpr) (st : PState)
    (h : st.tok = .errorT) : shiftLoopP (m + 1) F ret st = some (ret, st) := by
  simp only [shiftLoopP]; rw [h]

theorem testLoop_err (m : Nat) (F : TEEnv) (ret : TEExpr) (st : PState)
    (h : st.tok = .errorT) : testLoopP (m + 1) F ret st = some (ret, st) := by
  simp only [testLoopP]; rw [h]

theorem bitwLoop_err (m : Nat) (F : TEEnv) (ret : TEExpr) (st : PState)
    (h : st.tok = .errorT) : bitwLoopP (m + 1) F ret st = some (ret, st) := by
  simp only [bitwLoopP]; rw [h]

theorem exprLoop_err (m : Nat) (F : TEEnv) (ret : TEExpr) (st : PState)
    (h : st.tok = .errorT) : exprLoopP (m + 1) F ret st = some (ret, st) := by
  simp only [exprLoopP]; rw [h]

theorem listLoop_err (m : Nat) (F : TEEnv) (ret : TEExpr) (st : PState)
    (h : st.tok = .errorT) : listLoopP (m + 1) F ret st = some (ret, st) := by
  simp only [listLoopP]
  rw [if_neg (by simp [h])]

theorem factor_fail (F : TEEnv) (s1 s2 : PState)
    (hp : ∀ n, FailRel (powerP n F s1) (powerP n F s2)) :
    ∀ n, FailRel (factorP n F s1) (factorP n F s2) := by
  intro n
  cases n with
  | zero => exact Or.inl ⟨rfl, rfl⟩
  | succ n =>
    simp only [factorP]
    rcases hp n with ⟨h1, h2⟩ | ⟨a, sa, b, sb, h1, h2, ha, hb⟩
    · rw [h1, h2]; exact Or.inl ⟨rfl, rfl⟩
    · rw [h1, h2]
      dsimp only
      rw [if_neg (by simp [ha]), if_neg (by simp [hb])]
      exact Or.inr ⟨_, _, _, _, rfl, rfl, ha, hb⟩

theorem term_fail (F : TEEnv) (s1 s2 : PState)
    (hp : ∀ n, FailRel (factorP n F s1) (factorP n F s2)) :
    ∀ n, FailRel (termP n F s1) (termP n F s2) := by
  intro n
  cases n with
  | zero => exact Or.inl ⟨rfl, rfl⟩
  | succ n =>
    simp only [termP]
    rcases hp n with ⟨h1, h2⟩ | ⟨a, sa, b, sb, h1, h2, ha, hb⟩
    · rw [h1, h2]; exact Or.inl ⟨rfl, rfl⟩
    · rw [h1, h2]
      dsimp only
      cases n with
      | zero => exact Or.inl ⟨rfl, rfl⟩
      | succ m =>
        rw [termLoop_err m F a sa ha, termLoop_err m F b sb hb]
        exact Or.inr ⟨_, _, _, _, rfl, rfl, ha, hb⟩

theorem sum_fail (F : TEEnv) (s1 s2 : PState)
    (hp : ∀ n, FailRel (termP n F s1) (termP n F s2)) :
    ∀ n, FailRel (sumP n F s1) (sumP n F s2) := by
  intro n
  cases n with
  | zero => exact Or.inl ⟨rfl, rfl⟩
  | succ n =>
    simp only [sumP]
    rcases hp n with ⟨h1, h2⟩ | ⟨a, sa, b, sb, h1, h2, ha, hb⟩
    · rw [h1, h2]; exact Or.inl ⟨rfl, rfl⟩
    · rw [h1, h2]
      dsimp only
      cases n with
      | zero => exact Or.inl ⟨rfl, rfl⟩
      | succ m =>
        rw [sumLoop_err m F a sa ha, sumLoop_err m F b sb hb]
        exact Or.inr ⟨_, _, _, _, rfl, rfl, ha, hb⟩

theorem shift_fail (F : TEEnv) (s1 s2 : PState)
    (hp : ∀ n, FailRel (sumP n F s1) (sumP n F s2)) :
    ∀ n, FailRel (shiftP n F s1) (shiftP n F s2) := by
  intro n
  cases n with
  | zero => exact Or.inl ⟨rfl, rfl⟩
  | succ n =>
    simp only [shiftP]
    rcases hp n with ⟨h1, h2⟩ | ⟨a, sa, b, sb, h1, h2, ha, hb⟩
    · rw [h1, h2]; exact Or.inl ⟨rfl, rfl⟩
    · rw [h1, h2]
      dsimp only
      cases n with
      | zero => exact Or.inl ⟨rfl, rfl⟩
      | succ m =>
        rw [shiftLoop_err m F a sa ha, shiftLoop_err m F b sb hb]
        exact Or.inr ⟨_, _, _, _, rfl, rfl, ha, hb⟩

theorem test_fail (F : TEEnv) (s1 s2 : PState)
    (hp : ∀ n, FailRel (shiftP n F s1) (shiftP n F s2)) :
    ∀ n, FailRel (testP n F s1) (testP n F s2) := by
  intro n
  cases n with
  | zero => exact Or.inl ⟨rfl, rfl⟩
  | succ n =>
    simp only [testP]
    rcases hp n with ⟨h1, h2⟩ | ⟨a, sa, b, sb, h1, h2, ha, hb⟩
    · rw [h1, h2]; exact Or.inl ⟨rfl, rfl⟩
    · rw [h1, h2]
      dsimp only
      cases n with
      | zero => exact Or.inl ⟨rfl, rfl⟩
      | succ m =>
        rw [testLoop_err m F a sa ha, testLoop_err m F b sb hb]
        exact Or.inr ⟨_, _, _, _, rfl, rfl, ha, hb⟩

theorem bitw_fail (F : TEEnv) (s1 s2 : PState)
    (hp : ∀ n, FailRel (testP n F s1) (testP n F s2)) :
    ∀ n, FailRel (bitwP n F s1) (bitwP n F s2) := by
  intro n
  cases n with
  | zero => exact Or.inl ⟨rfl, rfl⟩
  | succ n =>
    simp only [bitwP]
    rcases hp n with ⟨h1, h2⟩ | ⟨a, sa, b, sb, h1, h2, ha, hb⟩
    · rw [h1, h2]; exact Or.inl ⟨rfl, rfl⟩
    · rw [h1, h2]
      dsimp only
      cases n with
      | zero => exact Or.inl ⟨rfl, rfl⟩
      | succ m =>
        rw [bitwLoop_err m F a sa ha, bitwLoop_err m F b sb hb]
        exact Or.inr ⟨_, _, _, _, rfl, rfl, ha, hb⟩

theorem expr_fail (F : TEEnv) (s1 s2 : PState)
    (hp : ∀ n, FailRel (bitwP n F s1) (bitwP n F s2)) :
    ∀ n, FailRel (exprP n F s1) (exprP n F s2) := by
  intro n
  cases n with
  | zero => exact Or.inl ⟨rfl, rfl⟩
  | succ n =>
    simp only [exprP]
    rcases hp n with ⟨h1, h2⟩ | ⟨a, sa, b, sb, h1, h2, ha, hb⟩
    · rw [h1, h2]; exact Or.inl ⟨rfl, rfl⟩
    · rw [h1, h2]
      dsimp only
      cases n with
      | zero => exact Or.inl ⟨rfl, rfl⟩
      | succ m =>
        rw [exprLoop_err m F a sa ha, exprLoop_err m F b sb hb]
        exact Or.inr ⟨_, _, _, _, rfl, rfl, ha, hb⟩

theorem list_fail (F : TEEnv) (s1 s2 : PState)
    (hp : ∀ n, FailRel (exprP n F s1) (exprP n F s2)) :
    ∀ n, FailRel (listP n F s1) (listP n F s2) := by
  intro n
  cases n with
  | zero => exact Or.inl ⟨rfl, rfl⟩
  | succ n =>
    simp only [listP]
    rcases hp n with ⟨h1, h2⟩ | ⟨a, sa, b, sb, h1, h2, ha, hb⟩
    · rw [h1, h2]; exact Or.inl ⟨rfl, rfl⟩
    · rw [h1, h2]
      dsimp only
      cases n with
      | zero => exact Or.inl ⟨rfl, rfl⟩
      | succ m =>
        rw [listLoop_err m F a sa ha, listLoop_err m F b sb hb]
        exact Or.inr ⟨_, _, _, _, rfl, rfl, ha, hb⟩

theorem compile_tree_congr (n : Nat) (F : TEEnv) (look : List TEVar)
    (σc : Nat → TEVal) (s1 s2 : String)
    (h : listP n F (next_token ⟨s1.data, .nullT, look⟩) =
           listP n F (next_token ⟨s2.data, .nullT, look⟩) ∨
         FailRel (listP n F (next_token ⟨s1.data, .nullT, look⟩))
           (listP n F (next_token ⟨s2.data, .nullT, look⟩))) :
    (te_compileFull n F look σc s1).map (fun r => r.1) =
      (te_compileFull n F look σc s2).map (fun r => r.1) := by
  simp only [te_compileFull]
  rcases h with heq | ⟨h1, h2⟩ | ⟨a, sa, b, sb, h1, h2, ha, hb⟩
  · rw [heq]
    cases hre : listP n F (next_token ⟨s2.data, .nullT, look⟩) with
    | none => rfl
    | some rs =>
      obtain ⟨root, st⟩ := rs
      dsimp only
      by_cases het : st.tok = .endT
      · rw [if_pos het, if_pos het]; rfl
      · rw [if_neg het, if_neg het]; rfl
  · rw [h1, h2]
  · rw [h1, h2]
    dsimp only
    rw [if_neg (show ¬sa.tok = Tok.endT by simp [ha]),
      if_neg (show ¬sb.tok = Tok.endT by simp [hb])]
    rfl

theorem lnot_negate (v : TEVal) : logical_not (negate v) = logical_not v := by
  cases v with
  | fin a =>
    simp only [logical_not, negate, teEq, intV, MQ.ofInt, MQ.eqb, MQ.neg, boolV]
    norm_num
  | pinf => rfl
  | ninf => rfl
  | nan => rfl

theorem list_p1 (F : TEEnv) (E : List Char) (look : List TEVar) :
    ∀ n, listP n F ⟨'-' :: E, .infixT .lnotF, look⟩ =
      listP n F ⟨E, .infixT .lnotF, look⟩ :=
  list_congr F _ _ (expr_congr F _ _ (bitw_congr F _ _ (test_congr F _ _
    (shift_congr F _ _ (sum_congr F _ _ (term_congr F _ _
      (factor_congr F _ _ (power_p1 F E look))))))))

theorem list_p1_fail (F : TEEnv) (r : List Char) (look : List TEVar) :
    ∀ n, FailRel (listP n F ⟨'-' :: '=' :: r, .infixT .lnotF, look⟩)
      (listP n F ⟨r, .infixT .neF, look⟩) :=
  list_fail F _ _ (expr_fail F _ _ (bitw_fail F _ _ (test_fail F _ _
    (shift_fail F _ _ (sum_fail F _ _ (term_fail F _ _
      (factor_fail F _ _ (power_p1_fail F r look))))))))

theorem list_p2 (F : TEEnv) (E : List Char) (look : List TEVar)
    (h : ∀ r', E ≠ '=' :: r') :
    ∀ n, listP n F ⟨'!' :: '-' :: E, .infixT .subF, look⟩ =
      listP n F ⟨'!' :: E, .infixT .subF, look⟩ :=
  list_congr F _ _ (expr_congr F _ _ (bitw_congr F _ _ (test_congr F _ _
    (shift_congr F _ _ (sum_congr F _ _ (term_congr F _ _
      (factor_congr F _ _ (power_p2 F E look h))))))))

theorem list_p2_fail (F : TEEnv) (r : List Char) (look : List TEVar) :
    ∀ n, FailRel (listP n F ⟨'!' :: '-' :: '=' :: r, .infixT .subF, look⟩)
      (listP n F ⟨'!' :: '=' :: r, .infixT .subF, look⟩) :=
  list_fail F _ _ (expr_fail F _ _ (bitw_fail F _ _ (test_fail F _ _
    (shift_fail F _ _ (sum_fail F _ _ (term_fail F _ _
      (factor_fail F _ _ (power_p2_fail F r look))))))))

theorem map_tree_eval (F : TEEnv) (σ : Nat → TEVal)
    (x y : Option (Option TEExpr × Int × Nat))
    (h : x.map (fun r => r.1) = y.map (fun r => r.1)) :
    x.map (fun r => r.1.map (te_eval F σ)) =
      y.map (fun r => r.1.map (te_eval F σ)) := by
  cases x with
  | none =>
    cases y with
    | none => rfl
    | some b => simp at h
  | some a =>
    cases y with
    | none => simp at h
    | some b =>
      simp only [Option.map_some', Option.some.injEq] at h ⊢
      rw [h]

/-- **C10.**  In a run of leading unary operators the parser discards a
unary `-` that appears after a `!` has already been seen, so for every
suffix string `E`, every binding table, every compile-time and every
eval-time variable state, compiling and evaluating `"!-" ++ E` agrees
with `"!" ++ E`, and `"-!-" ++ E` agrees with `"-!" ++ E` (the whole
compile-then-eval results are equal: fuel exhaustion, parse failure and
success with the same value all coincide); and the discard is sound
value-by-value: `logical_not (negate v) = logical_not v` for every
value `v`, including zero, the infinities and NaN. -/
theorem c10_lnot_discards_unary_minus (n : Nat) (F : TEEnv) (look : List TEVar)
    (σc σ : Nat → TEVal) (E : String) :
    ((te_compileFull n F look σc ("!-" ++ E)).map (fun r => r.1.map (te_eval F σ)) =
      (te_compileFull n F look σc ("!" ++ E)).map (fun r => r.1.map (te_eval F σ))) ∧
    ((te_compileFull n F look σc ("-!-" ++ E)).map (fun r => r.1.map (te_eval F σ)) =
      (te_compileFull n F look σc ("-!" ++ E)).map (fun r => r.1.map (te_eval F σ))) ∧
    (∀ v : TEVal, logical_not (negate v) = logical_not v) := by
  refine ⟨?_, ?_, fun v => lnot_negate v⟩
  · apply map_tree_eval
    apply compile_tree_congr
    rw [show ("!-" ++ E).data = '!' :: '-' :: E.data from rfl,
      show ("!" ++ E).data = '!' :: E.data from rfl,
      show next_token ⟨'!' :: '-' :: E.data, .nullT, look⟩ =
        ⟨'-' :: E.data, .infixT .lnotF, look⟩ from rfl]
    cases hE : E.data with
    | nil =>
      left
      rw [show next_token ⟨'!' :: ([] : List Char), .nullT, look⟩ =
        ⟨[], .infixT .lnotF, look⟩ from rfl]
      exact list_p1 F [] look n
    | cons c r =>
      by_cases hc : c = '='
      · subst hc
        right
        rw [show next_token ⟨'!' :: '=' :: r, .nullT, look⟩ =
          ⟨r, .infixT .neF, look⟩ from rfl]
        exact list_p1_fail F r look n
      · left
        rw [show next_token ⟨'!' :: c :: r, .nullT, look⟩ =
          (⟨(nextTok look ('!' :: c :: r)).2, (nextTok look ('!' :: c :: r)).1, look⟩ :
            PState) from rfl,
          nextTok_bang look (c :: r) (fun r' he => hc (List.cons.inj he).1)]
        exact list_p1 F (c :: r) look n
  · apply map_tree_eval
    apply compile_tree_congr
    rw [show ("-!-" ++ E).data = '-' :: '!' :: '-' :: E.data from rfl,
      show ("-!" ++ E).data = '-' :: '!' :: E.data from rfl,
      show next_token ⟨'-' :: '!' :: '-' :: E.data, .nullT, look⟩ =
        ⟨'!' :: '-' :: E.data, .infixT .subF, look⟩ from rfl,
      show next_token ⟨'-' :: '!' :: E.data, .nullT, look⟩ =
        ⟨'!' :: E.data, .infixT .subF, look⟩ from rfl]
    cases hE : E.data with
    | nil =>
      left
      exact list_p2 F [] look (fun r' he => List.noConfusion he) n
    | cons c r =>
      by_cases hc : c = '='
      · subst hc
        right
        exact list_p2_fail F r look n
      · left
        exact list_p2 F (c :: r) look (fun r' he => hc (List.cons.inj he).1) n

end TinyExpr
